import Mathlib

/-!
Verification development for the `tomli` TOML parser
(`src/tomli/_parser.py`).  The parser is shallowly embedded: the source
text is a `List Char`, positions are natural-number indices, Python
exceptions become `Except` values, the mutable document tree and flag
store become persistent structures that every rule threads through.
Looping functions take an explicit fuel argument so that all
definitions are structurally recursive and reduce inside the kernel;
top-level entry points instantiate the fuel generously (any fuel at
least proportional to the input length is sufficient, since every
loop iteration consumes at least one input character).

The regular expressions of `tomli._re` (RE_DATETIME, RE_LOCAL_TIME,
RE_DEC_OR_FLOAT, RE_HEX, RE_OCT, RE_BIN) are not part of the sources
under verification; the corresponding matchers below are modelled from
the specification of the tokenizer adapter and are marked as such.
-/

namespace Tomli

abbrev Chars := List Char

/-- `ASCII_CTRL`: control characters 0..31 and 127. -/
def isAsciiCtrl (c : Char) : Bool := c.toNat < 32 || c.toNat == 127

/-- `ILLEGAL_BASIC_STR_CHARS = ASCII_CTRL - {"\t"}`. -/
def illegalBasicStrChar (c : Char) : Bool := isAsciiCtrl c && !(c == '\t')

/-- `ILLEGAL_MULTILINE_BASIC_STR_CHARS = ASCII_CTRL - {"\t\n\r"}`. -/
def illegalMultilineBasicStrChar (c : Char) : Bool :=
  isAsciiCtrl c && !(c == '\t' || c == '\n' || c == '\r')

/-- `ILLEGAL_LITERAL_STR_CHARS = ILLEGAL_BASIC_STR_CHARS`. -/
def illegalLiteralStrChar (c : Char) : Bool := illegalBasicStrChar c

/-- `ILLEGAL_MULTILINE_LITERAL_STR_CHARS = ASCII_CTRL - {"\t\n"}`. -/
def illegalMultilineLiteralStrChar (c : Char) : Bool :=
  isAsciiCtrl c && !(c == '\t' || c == '\n')

/-- `ILLEGAL_COMMENT_CHARS = ILLEGAL_BASIC_STR_CHARS`. -/
def illegalCommentChar (c : Char) : Bool := illegalBasicStrChar c

/-- `TOML_WS = {" ", "\t"}`. -/
def isTomlWs (c : Char) : Bool := c == ' ' || c == '\t'

/-- `TOML_WS_AND_NEWLINE`. -/
def isTomlWsOrNl (c : Char) : Bool := isTomlWs c || c == '\n'

/-- `BARE_KEY_CHARS = ascii letters + digits + "-_"` (Lean's
`Char.isAlphanum` is exactly the ASCII letters and digits). -/
def isBareKeyChar (c : Char) : Bool := c.isAlphanum || c == '-' || c == '_'

/-- `KEY_INITIAL_CHARS = BARE_KEY_CHARS | {", '}`. -/
def isKeyInitialChar (c : Char) : Bool := isBareKeyChar c || c == '"' || c == '\''

/-- `string.hexdigits` membership. -/
def isHexDig (c : Char) : Bool :=
  c.isDigit || ('a' ≤ c && c ≤ 'f') || ('A' ≤ c && c ≤ 'F')

/-- Value of a single decimal digit character. -/
def digitVal (c : Char) : Nat := c.toNat - 48

/-- Value of a single hexadecimal digit character. -/
def hexDigitVal (c : Char) : Nat :=
  if c.isDigit then c.toNat - 48
  else if 'a' ≤ c && c ≤ 'f' then c.toNat - 87
  else c.toNat - 55

/-- `int(s)` on a string of decimal digits. -/
def digitsToNat (cs : Chars) : Nat := cs.foldl (fun a c => a * 10 + digitVal c) 0

/-- `int(s, b)` on a string of base-`b` digits (underscores removed by
the caller). -/
def baseToNat (b : Nat) (cs : Chars) : Nat :=
  cs.foldl (fun a c => a * b + hexDigitVal c) 0

/-- `int(s)` where `s` may start with `+`/`-` and may contain
underscores (as Python's `int` accepts for matched numeric literals). -/
def decToInt (cs : Chars) : Int :=
  match cs with
  | '-' :: rest => -(digitsToNat (rest.filter (fun c => !(c == '_'))) : Int)
  | '+' :: rest => (digitsToNat (rest.filter (fun c => !(c == '_'))) : Int)
  | _ => (digitsToNat (cs.filter (fun c => !(c == '_'))) : Int)

/-- Python slice `src[pos : pos + n]`. -/
def slice (src : Chars) (pos n : Nat) : Chars := (src.drop pos).take n

/-- Python slice `src[start : stop]`. -/
def sliceTo (src : Chars) (start stop : Nat) : Chars :=
  (src.drop start).take (stop - start)

/-- `"\r\n"` is replaced by `"\n"` before parsing begins
(`s.replace("\r\n", "\n")`, scanning left to right). -/
def normalize : Chars → Chars
  | '\r' :: '\n' :: rest => '\n' :: normalize rest
  | c :: rest => c :: normalize rest
  | [] => []

/-- `is_unicode_scalar_value`. -/
def isUnicodeScalarValue (codepoint : Nat) : Bool :=
  (codepoint ≤ 55295) || (57344 ≤ codepoint && codepoint ≤ 1114111)

/-! ## The public error kind (`TOMLDecodeError`, `suffixed_err`) -/

/-- The single public document-format error.  `msg` is the bare
message, `loc` the human-readable coordinates that `suffixed_err`
appends: the full rendered message is `msg ++ " (at " ++ loc ++ ")"`. -/
structure TOMLDecodeError where
  msg : String
  loc : String

/-- The rendered message of an error, `f"{msg} (at {coords})"`. -/
def TOMLDecodeError.message (e : TOMLDecodeError) : String :=
  e.msg ++ " (at " ++ e.loc ++ ")"

/-- Index of the last `"\n"` strictly before `pos`
(`src.rindex("\n", 0, pos)`; callers only use it when one exists). -/
def rfindNl (src : Chars) : Nat → Nat
  | 0 => 0
  | i + 1 => if src.get? i = some '\n' then i else rfindNl src i

/-- `coord_repr` from `suffixed_err`: `"end of document"` when the
position is at or past the end, else 1-based `"line L, column C"`
where `L` counts the newlines before the position. -/
def coordRepr (src : Chars) (pos : Nat) : String :=
  if src.length ≤ pos then "end of document"
  else
    let line := (src.take pos).count '\n' + 1
    let column := if line = 1 then pos + 1 else pos - rfindNl src pos
    "line " ++ toString line ++ ", column " ++ toString column

/-- `suffixed_err`: build the public error with coordinates in source. -/
def suffixedErr (src : Chars) (pos : Nat) (msg : String) : TOMLDecodeError :=
  ⟨msg, coordRepr src pos⟩

/-- Whether a parse outcome is an error. -/
def isErr {ε α : Type} : Except ε α → Bool
  | .error _ => true
  | .ok _ => false

/-- An exception escaping the parser.  This version of the source has
no `try/except` around the standard-library `date`, `time`, `datetime`
and `timezone` constructors called in `parse_datetime` and
`parse_localtime`, so besides the public `TOMLDecodeError` a bare
`ValueError` raised by those constructors can reach the caller. -/
inductive PyExn : Type where
  | toml (e : TOMLDecodeError)
  | valueError (msg : String)

/-- Re-raise a public error unchanged into the exception sum. -/
def liftT {α : Type} : Except TOMLDecodeError α → Except PyExn α
  | .error e => .error (.toml e)
  | .ok a => .ok a

/-! ## Values and the document tree (`NestedDict`) -/

/-- The TOML value model.  Floats keep the matched text: the pluggable
float parser is modelled as a function from the matched characters to
a value, and the default parser tags the text as a float. -/
inductive Value : Type where
  | str (s : Chars)
  | int (n : Int)
  | float (raw : Chars)
  | bool (b : Bool)
  | date (year month day : Nat)
  | time (hour minute sec micros : Nat)
  | datetime (year month day hour minute sec micros : Nat) (tz : Option Int)
  | array (xs : List Value)
  | table (ts : List (Chars × Value))

/-- Insertion-ordered tables, the content of `NestedDict.dict`. -/
abbrev Table := List (Chars × Value)

/-- `parse_float` parameter: text of a matched float literal to value. -/
abbrev ParseFloat := Chars → Value

/-- The default float parser, tagging the matched text. -/
def defaultParseFloat : ParseFloat := Value.float

/-- Dict lookup. -/
def tget : Table → Chars → Option Value
  | [], _ => none
  | (k0, v0) :: rest, k => if k0 = k then some v0 else tget rest k

/-- Dict store, preserving insertion order. -/
def tset : Table → Chars → Value → Table
  | [], k, v => [(k, v)]
  | (k0, v0) :: rest, k, v =>
    if k0 = k then (k, v) :: rest else (k0, v0) :: tset rest k v

/-- `isinstance(value, (dict, list))`: the container values whose
namespaces are frozen after a key/value assignment. -/
def Value.isContainer : Value → Bool
  | .array _ => true
  | .table _ => true
  | _ => false

abbrev Key := List Chars

/-- `NestedDict.get_or_create_nest` together with the caller's
mutation of the returned nest, in persistent form: walk `key`,
creating an empty table at each missing segment; when `accessLists` is
true and the traversed value is a list, descend into its last element;
fail (`KeyError`, reported as `.error ()`) when the traversed value is
not a table.  `f` is applied to the nest; its `Bool` result is a
signal the caller interprets (e.g. "key already present").  The source
raises `IndexError` when descending into an empty list; that point is
unreachable (header-created lists are never empty and value lists are
frozen), and is modelled as the same internal failure. -/
def modifyNest (t : Table) (key : Key) (accessLists : Bool)
    (f : Table → Table × Bool) : Except Unit (Table × Bool) :=
  match key with
  | [] => .ok (f t)
  | k :: rest =>
    match (tget t k).getD (.table []) with
    | .table inner =>
      match modifyNest inner rest accessLists f with
      | .error e => .error e
      | .ok (inner2, b) => .ok (tset t k (.table inner2), b)
    | .array xs =>
      if accessLists then
        match xs.getLast? with
        | some (.table inner) =>
          match modifyNest inner rest accessLists f with
          | .error e => .error e
          | .ok (inner2, b) =>
            .ok (tset t k (.array (xs.dropLast ++ [.table inner2])), b)
        | some _ => .error ()
        | none => .error ()
      else .error ()
    | _ => .error ()

/-- The nest `modifyNest` targets (read-only view of
`get_or_create_nest`, treating missing keys as empty tables). -/
def getNestView (t : Table) (key : Key) (accessLists : Bool) : Option Table :=
  match key with
  | [] => some t
  | k :: rest =>
    match (tget t k).getD (.table []) with
    | .table inner => getNestView inner rest accessLists
    | .array xs =>
      if accessLists then
        match xs.getLast? with
        | some (.table inner) => getNestView inner rest accessLists
        | some _ => none
        | none => none
      else none
    | _ => none

/-! ## The namespace/flag tracker (`Flags`) -/

/-- `Flags.FROZEN`: marks an immutable namespace. -/
def FROZEN : Nat := 0

/-- `Flags.EXPLICIT_NEST`: marks a nest that can no longer be opened
with the `[table]` syntax. -/
def EXPLICIT_NEST : Nat := 1

/-- One node of `Flags._flags`: plain flags, recursive flags, children. -/
inductive FlagNode : Type where
  | mk (flags : List Nat) (recFlags : List Nat) (nested : List (Chars × FlagNode))

abbrev FTrie := List (Chars × FlagNode)

def FlagNode.flags : FlagNode → List Nat
  | .mk f _ _ => f

def FlagNode.recFlags : FlagNode → List Nat
  | .mk _ r _ => r

def FlagNode.nested : FlagNode → FTrie
  | .mk _ _ n => n

def flookup : FTrie → Chars → Option FlagNode
  | [], _ => none
  | (k0, n0) :: rest, k => if k0 = k then some n0 else flookup rest k

def fstore : FTrie → Chars → FlagNode → FTrie
  | [], k, n => [(k, n)]
  | (k0, n0) :: rest, k, n =>
    if k0 = k then (k, n) :: rest else (k0, n0) :: fstore rest k n

def fremove : FTrie → Chars → FTrie
  | [], _ => []
  | (k0, n0) :: rest, k =>
    if k0 = k then rest else (k0, n0) :: fremove rest k

def addFlag (l : List Nat) (flag : Nat) : List Nat :=
  if flag ∈ l then l else l ++ [flag]

/-- `Flags.unset_all`: walk `key[:-1]` (returning unchanged when a
segment is missing) and pop the final entry. -/
def flagsUnsetAll (cont : FTrie) : Key → FTrie
  | [] => cont
  | [stem] => fremove cont stem
  | k :: rest =>
    match flookup cont k with
    | none => cont
    | some n => fstore cont k (.mk n.flags n.recFlags (flagsUnsetAll n.nested rest))

/-- Second phase of `Flags.set_for_relative_key`: add `flag` to the
plain flag set of every segment of the relative key, creating nodes. -/
def flagsSetRel (cont : FTrie) (rel : Key) (flag : Nat) : FTrie :=
  match rel with
  | [] => cont
  | k :: rest =>
    match flookup cont k with
    | some n =>
      fstore cont k (.mk (addFlag n.flags flag) n.recFlags (flagsSetRel n.nested rest flag))
    | none => fstore cont k (.mk [flag] [] (flagsSetRel [] rest flag))

/-- `Flags.set_for_relative_key`: walk/create nodes for the head key,
then mark every segment of the relative key. -/
def flagsSetForRelativeKey (cont : FTrie) (headKey rel : Key) (flag : Nat) : FTrie :=
  match headKey with
  | [] => flagsSetRel cont rel flag
  | k :: rest =>
    let n := (flookup cont k).getD (.mk [] [] [])
    fstore cont k (.mk n.flags n.recFlags (flagsSetForRelativeKey n.nested rest rel flag))

/-- `Flags.set`: add `flag` to the plain or recursive set of the final
node, creating intermediate nodes.  (Never called on an empty key.) -/
def flagsSet (cont : FTrie) (key : Key) (flag : Nat) (recursive : Bool) : FTrie :=
  match key with
  | [] => cont
  | [stem] =>
    let n := (flookup cont stem).getD (.mk [] [] [])
    if recursive then fstore cont stem (.mk n.flags (addFlag n.recFlags flag) n.nested)
    else fstore cont stem (.mk (addFlag n.flags flag) n.recFlags n.nested)
  | k :: rest =>
    let n := (flookup cont k).getD (.mk [] [] [])
    fstore cont k (.mk n.flags n.recFlags (flagsSet n.nested rest flag recursive))

/-- `Flags.is_`: `flag` is set at the exact node (plain or recursive),
or at any strict-prefix ancestor recursively.  The document root (the
empty key) has no flags. -/
def flagsIs (cont : FTrie) (key : Key) (flag : Nat) : Bool :=
  match key with
  | [] => false
  | [stem] =>
    match flookup cont stem with
    | some n => flag ∈ n.flags || flag ∈ n.recFlags
    | none => false
  | k :: rest =>
    match flookup cont k with
    | some n => flag ∈ n.recFlags || flagsIs n.nested rest flag
    | none => false

/-! ## Scanners (`skip_chars`, `skip_until`, comments) -/

/-- Loop body of `skip_chars`; the fuel is instantiated so that it
never runs out (each iteration consumes one character). -/
def skipCharsGo (src : Chars) (p : Char → Bool) : Nat → Nat → Nat
  | 0, pos => pos
  | fuel + 1, pos =>
    match src.get? pos with
    | some c => if p c then skipCharsGo src p fuel (pos + 1) else pos
    | none => pos

/-- `skip_chars`. -/
def skipChars (src : Chars) (pos : Nat) (p : Char → Bool) : Nat :=
  skipCharsGo src p (src.length + 1) pos

/-- Loop body of `skip_until`. -/
def skipUntilGo (src : Chars) (expectChar : Char) (errorOn : Char → Bool)
    (errorOnEof : Bool) (expectMsg : String) :
    Nat → Nat → Except TOMLDecodeError Nat
  | 0, pos => .ok pos
  | fuel + 1, pos =>
    match src.get? pos with
    | none =>
      if errorOnEof then .error (suffixedErr src pos expectMsg) else .ok pos
    | some c =>
      if c = expectChar then .ok pos
      else if errorOn c then
        .error (suffixedErr src pos "Found invalid character")
      else skipUntilGo src expectChar errorOn errorOnEof expectMsg fuel (pos + 1)

/-- `skip_until`. -/
def skipUntil (src : Chars) (pos : Nat) (expectChar : Char)
    (errorOn : Char → Bool) (errorOnEof : Bool) (expectMsg : String) :
    Except TOMLDecodeError Nat :=
  skipUntilGo src expectChar errorOn errorOnEof expectMsg (src.length + 1) pos

/-- `expect_comment`: consume `#` and scan to end of line, rejecting
illegal control characters. -/
def expectComment (src : Chars) (pos : Nat) : Except TOMLDecodeError Nat :=
  skipUntil src (pos + 1) '\n' illegalCommentChar false "Expected newline"

/-- `skip_comment`. -/
def skipComment (src : Chars) (pos : Nat) : Except TOMLDecodeError Nat :=
  match src.get? pos with
  | some '#' => expectComment src pos
  | _ => .ok pos

/-- Loop body of `skip_comments_and_array_ws` (loop until no progress). -/
def skipCommentsAndArrayWsGo (src : Chars) : Nat → Nat → Except TOMLDecodeError Nat
  | 0, pos => .ok pos
  | fuel + 1, pos =>
    let p1 := skipChars src pos isTomlWsOrNl
    match skipComment src p1 with
    | .error e => .error e
    | .ok p2 =>
      if p2 = pos then .ok pos else skipCommentsAndArrayWsGo src fuel p2

/-- `skip_comments_and_array_ws`. -/
def skipCommentsAndArrayWs (src : Chars) (pos : Nat) : Except TOMLDecodeError Nat :=
  skipCommentsAndArrayWsGo src (src.length + 2) pos

/-! ## String builders -/

/-- `parse_hex_char`: exactly `hexLen` hex digits decoding to a
Unicode scalar value. -/
def parseHexChar (src : Chars) (pos : Nat) (hexLen : Nat) :
    Except TOMLDecodeError (Nat × Chars) :=
  let hexStr := slice src pos hexLen
  if hexStr.length ≠ hexLen || hexStr.any (fun c => !isHexDig c) then
    .error (suffixedErr src pos "Invalid hex value")
  else
    let hexInt := baseToNat 16 hexStr
    if !isUnicodeScalarValue hexInt then
      .error (suffixedErr src (pos + hexLen) "Escaped character is not a Unicode scalar value")
    else .ok (pos + hexLen, [Char.ofNat hexInt])

/-- `BASIC_STR_ESCAPE_REPLACEMENTS`. -/
def escapeReplacement (cs : Chars) : Option Char :=
  match cs with
  | ['\\', 'b'] => some (Char.ofNat 8)
  | ['\\', 't'] => some '\t'
  | ['\\', 'n'] => some '\n'
  | ['\\', 'f'] => some (Char.ofNat 12)
  | ['\\', 'r'] => some '\r'
  | ['\\', '"'] => some '"'
  | ['\\', '\\'] => some '\\'
  | _ => none

/-- `parse_basic_str_escape` (and its `multiline` variant). -/
def parseBasicStrEscape (src : Chars) (pos : Nat) (multiline : Bool) :
    Except TOMLDecodeError (Nat × Chars) :=
  let escapeId := slice src pos 2
  let pos2 := pos + 2
  if multiline &&
      (escapeId = ['\\', ' '] || escapeId = ['\\', '\t'] || escapeId = ['\\', '\n']) then
    if escapeId ≠ ['\\', '\n'] then
      let p := skipChars src pos2 isTomlWs
      match src.get? p with
      | none => .ok (p, [])
      | some c =>
        if c ≠ '\n' then .error (suffixedErr src p "Unescaped backslash in a string")
        else .ok (skipChars src (p + 1) isTomlWsOrNl, [])
    else .ok (skipChars src pos2 isTomlWsOrNl, [])
  else
    match escapeReplacement escapeId with
    | some r => .ok (pos2, [r])
    | none =>
      if escapeId = ['\\', 'u'] then parseHexChar src pos2 4
      else if escapeId = ['\\', 'U'] then parseHexChar src pos2 8
      else if escapeId.length ≠ 2 then
        .error (suffixedErr src pos2 "Unterminated string")
      else .error (suffixedErr src pos2 "Unescaped backslash in a string")

/-- `parse_literal_str`. -/
def parseLiteralStr (src : Chars) (pos : Nat) : Except TOMLDecodeError (Nat × Chars) :=
  let startPos := pos + 1
  match skipUntil src startPos '\'' illegalLiteralStrChar true "Expected closing quote" with
  | .error e => .error e
  | .ok p => .ok (p + 1, sliceTo src startPos p)

/-- Loop body of `parse_string`.  `esc = none` means no escape
processing (literal strings); `esc = some multiline` selects
`parse_basic_str_escape` with that multiline setting (the only two
escape parsers of the source). -/
def parseStringGo (src : Chars) (delim : Char) (delimLen : Nat)
    (errorOn : Char → Bool) (esc : Option Bool) :
    Nat → Nat → Nat → Chars → Except TOMLDecodeError (Nat × Chars)
  | 0, pos, _, _ => .error (suffixedErr src pos "Unterminated string")
  | fuel + 1, pos, startPos, result =>
    match src.get? pos with
    | none => .error (suffixedErr src pos "Unterminated string")
    | some c =>
      if c = delim then
        if slice src (pos + 1) (delimLen - 1) = List.replicate (delimLen - 1) delim then
          .ok (pos + delimLen, result ++ sliceTo src startPos pos)
        else parseStringGo src delim delimLen errorOn esc fuel (pos + 1) startPos result
      else
        match esc with
        | some multiline =>
          if c = '\\' then
            match parseBasicStrEscape src pos multiline with
            | .error e => .error e
            | .ok (pos2, parsed) =>
              parseStringGo src delim delimLen errorOn esc fuel pos2 pos2
                (result ++ sliceTo src startPos pos ++ parsed)
          else if errorOn c then .error (suffixedErr src pos "Illegal character")
          else parseStringGo src delim delimLen errorOn esc fuel (pos + 1) startPos result
        | none =>
          if errorOn c then .error (suffixedErr src pos "Illegal character")
          else parseStringGo src delim delimLen errorOn esc fuel (pos + 1) startPos result

/-- `parse_string`. -/
def parseString (src : Chars) (pos : Nat) (delim : Char) (delimLen : Nat)
    (errorOn : Char → Bool) (esc : Option Bool) : Except TOMLDecodeError (Nat × Chars) :=
  parseStringGo src delim delimLen errorOn esc (src.length + 2) pos pos []

/-- `parse_basic_str`. -/
def parseBasicStr (src : Chars) (pos : Nat) : Except TOMLDecodeError (Nat × Chars) :=
  parseString src (pos + 1) '"' 1 illegalBasicStrChar (some false)

/-- `parse_multiline_str`: skip the opening triple delimiter, strip an
immediately following newline, scan the body, then absorb up to two
extra closing delimiter characters into the result. -/
def parseMultilineStr (src : Chars) (pos : Nat) (literal : Bool) :
    Except TOMLDecodeError (Nat × Chars) :=
  let pos1 := pos + 3
  let pos2 := if src.get? pos1 = some '\n' then pos1 + 1 else pos1
  let delim := if literal then '\'' else '"'
  let errorOn := if literal then illegalMultilineLiteralStrChar else illegalMultilineBasicStrChar
  let esc : Option Bool := if literal then none else some true
  match parseString src pos2 delim 3 errorOn esc with
  | .error e => .error e
  | .ok (p, result) =>
    if src.get? p ≠ some delim then .ok (p, result)
    else if src.get? (p + 1) ≠ some delim then .ok (p + 1, result ++ [delim])
    else .ok (p + 2, result ++ [delim, delim])

/-! ## Key parsing -/

/-- `parse_key_part`. -/
def parseKeyPart (src : Chars) (pos : Nat) : Except TOMLDecodeError (Nat × Chars) :=
  match src.get? pos with
  | some c =>
    if isBareKeyChar c then
      let p := skipChars src pos isBareKeyChar
      .ok (p, sliceTo src pos p)
    else if c = '\'' then parseLiteralStr src pos
    else if c = '"' then parseBasicStr src pos
    else .error (suffixedErr src pos "Invalid initial character for a key part")
  | none => .error (suffixedErr src pos "Invalid initial character for a key part")

/-- Dotted-key loop of `parse_key`. -/
def parseKeyGo (src : Chars) : Nat → Nat → Key → Except TOMLDecodeError (Nat × Key)
  | 0, pos, acc => .ok (pos, acc)
  | fuel + 1, pos, acc =>
    if src.get? pos = some '.' then
      let p1 := skipChars src (pos + 1) isTomlWs
      match parseKeyPart src p1 with
      | .error e => .error e
      | .ok (p2, part) => parseKeyGo src fuel (skipChars src p2 isTomlWs) (acc ++ [part])
    else .ok (pos, acc)

/-- `parse_key`. -/
def parseKey (src : Chars) (pos : Nat) : Except TOMLDecodeError (Nat × Key) :=
  match parseKeyPart src pos with
  | .error e => .error e
  | .ok (p, part) => parseKeyGo src (src.length + 1) (skipChars src p isTomlWs) [part]

/-! ## Tokenizer adapter (the `tomli._re` patterns, modelled from the
spec) and scalar builders -/

/-- Read exactly `n` decimal digits, accumulating their value. -/
def readNDigitsAux (acc : Nat) : Nat → Chars → Option (Nat × Chars)
  | 0, cs => some (acc, cs)
  | n + 1, c :: cs =>
    if c.isDigit then readNDigitsAux (acc * 10 + digitVal c) n cs else none
  | _ + 1, [] => none

/-- Read exactly `n` decimal digits. -/
def readNDigits : Nat → Chars → Option (Nat × Chars) := readNDigitsAux 0

/-- Greedy `(?:_?D)*`: digits of class `isDig` with optional single
underscores between them. -/
def manyUDigits (isDig : Char → Bool) : Chars → Chars × Chars
  | '_' :: c :: rest =>
    if isDig c then
      let (m, r) := manyUDigits isDig rest
      ('_' :: c :: m, r)
    else ([], '_' :: c :: rest)
  | c :: rest =>
    if isDig c then
      let (m, r) := manyUDigits isDig rest
      (c :: m, r)
    else ([], c :: rest)
  | [] => ([], [])

/-- Greedy run of decimal digits. -/
def takeDigits : Chars → Chars × Chars
  | c :: rest =>
    if c.isDigit then
      let (m, r) := takeDigits rest
      (c :: m, r)
    else ([], c :: rest)
  | [] => ([], [])

/-- Greedy `(\.[0-9]+)?`: the fractional-seconds group, kept with its
leading dot exactly as the source's regex group. -/
def matchFrac : Chars → Chars × Chars
  | '.' :: c :: rest =>
    if c.isDigit then
      let (m, r) := takeDigits rest
      ('.' :: c :: m, r)
    else ([], '.' :: c :: rest)
  | cs => ([], cs)

/-- The matched time-of-day groups of the datetime pattern. -/
structure TimeG where
  hour : Nat
  minute : Nat
  sec : Nat
  frac : Chars
  offset : Option (Bool × Nat × Nat)
  hasZ : Bool

/-- The matched groups of the datetime pattern and the match length. -/
structure DTG where
  len : Nat
  year : Nat
  month : Nat
  day : Nat
  time : Option TimeG

/-- Offset group: a sign and `HH:MM` (six characters). -/
def matchOffset (cs : Chars) : Option (Bool × Nat × Nat) :=
  match cs with
  | s :: rest =>
    if s = '+' || s = '-' then
      match readNDigits 2 rest with
      | some (oh, ':' :: rest2) =>
        match readNDigits 2 rest2 with
        | some (om, _) => some (s = '+', oh, om)
        | _ => none
      | _ => none
    else none
  | [] => none

/-- Optional time-of-day part of the datetime pattern: a separator
(`T`, `t` or space), `HH:MM:SS`, optional fraction, optional UTC
marker (`Z` or `z`) or sign and `HH:MM` offset.  Returns the groups
and the length.  `hasZ` records a capital `Z` in the matched text,
exactly what the source's `"Z" in match_str` test sees: a lowercase
`z` marker is consumed by the pattern but leaves `hasZ` false, so the
source builds a naive (offset-free) datetime from it. -/
def matchTimePart (cs : Chars) : Option (TimeG × Nat) :=
  match cs with
  | sep :: rest =>
    if sep = 'T' || sep = 't' || sep = ' ' then
      match readNDigits 2 rest with
      | some (h, ':' :: r2) =>
        match readNDigits 2 r2 with
        | some (mi, ':' :: r3) =>
          match readNDigits 2 r3 with
          | some (s, r4) =>
            let (frac, r5) := matchFrac r4
            match r5 with
            | 'Z' :: _ => some (⟨h, mi, s, frac, none, true⟩, 9 + frac.length + 1)
            | 'z' :: _ => some (⟨h, mi, s, frac, none, false⟩, 9 + frac.length + 1)
            | _ =>
              match matchOffset r5 with
              | some off => some (⟨h, mi, s, frac, some off, false⟩, 9 + frac.length + 6)
              | none => some (⟨h, mi, s, frac, none, false⟩, 9 + frac.length)
          | none => none
        | _ => none
      | _ => none
    else none
  | [] => none

/-- Modelled from the spec: the tokenizer adapter's offset/local
datetime pattern (`RE_DATETIME` of `tomli._re`, which is not among the
sources): `YYYY-MM-DD`, optionally followed by the time-of-day part.
The source recovers the offset sign from a `+` in the matched text and
UTC from a `Z` in the matched text; both are recorded as groups here. -/
def matchDatetime (cs : Chars) : Option DTG :=
  match readNDigits 4 cs with
  | some (y, '-' :: r1) =>
    match readNDigits 2 r1 with
    | some (mo, '-' :: r2) =>
      match readNDigits 2 r2 with
      | some (d, r3) =>
        match matchTimePart r3 with
        | some (t, tlen) => some ⟨10 + tlen, y, mo, d, some t⟩
        | none => some ⟨10, y, mo, d, none⟩
      | none => none
    | _ => none
  | _ => none

/-- The matched groups of the local-time pattern and the length. -/
structure LTG where
  len : Nat
  hour : Nat
  minute : Nat
  sec : Nat
  frac : Chars

/-- Modelled from the spec: the tokenizer adapter's local-time pattern
(`RE_LOCAL_TIME` of `tomli._re`, not among the sources): `HH:MM:SS`
with an optional fractional group. -/
def matchLocalTime (cs : Chars) : Option LTG :=
  match readNDigits 2 cs with
  | some (h, ':' :: r1) =>
    match readNDigits 2 r1 with
    | some (mi, ':' :: r2) =>
      match readNDigits 2 r2 with
      | some (s, r3) =>
        let (frac, _) := matchFrac r3
        some ⟨8 + frac.length, h, mi, s, frac⟩
      | none => none
    | _ => none
  | _ => none

/-- `int(micros_str[1:].ljust(6, "0")[:6]) if micros_str else 0`: drop
the dot, left-justify-pad the fractional digits to six characters with
trailing zeros, truncate to six, convert to an integer. -/
def microsOfFrac (fracWithDot : Chars) : Nat :=
  match fracWithDot with
  | [] => 0
  | _ :: ds => digitsToNat ((ds ++ List.replicate 6 '0').take 6)

/-- Leap year, as the standard library's calendar arithmetic has it. -/
def isLeapYear (y : Nat) : Bool :=
  y % 4 == 0 && (y % 100 != 0 || y % 400 == 0)

/-- Days in a month, as the standard library's `date` constructor has
it. -/
def daysInMonth (y m : Nat) : Nat :=
  if m = 2 then (if isLeapYear y then 29 else 28)
  else if m = 4 || m = 6 || m = 9 || m = 11 then 30
  else 31

/-- The field validation of the standard-library `date(year, month,
day)` constructor: `ValueError` outside the documented ranges. -/
def dateCheck (y mo d : Nat) : Except String Unit :=
  if ¬(1 ≤ y ∧ y ≤ 9999) then .error "year must be in 1..9999"
  else if ¬(1 ≤ mo ∧ mo ≤ 12) then .error "month must be in 1..12"
  else if ¬(1 ≤ d ∧ d ≤ daysInMonth y mo) then .error "day is out of range for month"
  else .ok ()

/-- The time-field validation shared by the standard-library `time`
and `datetime` constructors. -/
def timeCheck (h mi s us : Nat) : Except String Unit :=
  if ¬h ≤ 23 then .error "hour must be in 0..23"
  else if ¬mi ≤ 59 then .error "minute must be in 0..59"
  else if ¬s ≤ 59 then .error "second must be in 0..59"
  else if ¬us ≤ 999999 then .error "microsecond must be in 0..999999"
  else .ok ()

/-- The standard-library `timezone(timedelta(...))` constructor: the
offset must lie strictly between -24 and +24 hours. -/
def timezoneCheck (offMinutes : Int) : Except String Unit :=
  if offMinutes ≤ -1440 ∨ 1440 ≤ offMinutes then
    .error "offset must be a timedelta strictly between -timedelta(hours=24) and timedelta(hours=24)"
  else .ok ()

/-- The `tz` computed by `parse_datetime` before it calls `datetime`:
`timezone(timedelta(hours=dir*oh, minutes=dir*om))` when the offset
group matched (which can itself raise `ValueError`), UTC when a
capital `Z` is in the matched text, else no offset.  Offsets are kept
in minutes. -/
def tzOf (t : TimeG) : Except String (Option Int) :=
  match t.offset with
  | some (pls, oh, om) =>
    match timezoneCheck ((if pls then 1 else -1) * (60 * (oh : Int) + (om : Int))) with
    | .error m => .error m
    | .ok _ => .ok (some ((if pls then 1 else -1) * (60 * (oh : Int) + (om : Int))))
  | none => .ok (if t.hasZ then some 0 else none)

/-- `parse_datetime`: build a local date (no time group) or a datetime
with optional fixed offset from the matched groups.  The standard
library `date`/`datetime`/`timezone` constructors validate their
fields and raise `ValueError`, which nothing in this version of the
source catches; the checks run in the source's order: `tz` first, then
the `datetime` constructor's date fields, then its time fields. -/
def parseDatetimeV (g : DTG) : Except String Value :=
  match g.time with
  | none =>
    match dateCheck g.year g.month g.day with
    | .error m => .error m
    | .ok _ => .ok (.date g.year g.month g.day)
  | some t =>
    match tzOf t with
    | .error m => .error m
    | .ok tz =>
      match dateCheck g.year g.month g.day with
      | .error m => .error m
      | .ok _ =>
        match timeCheck t.hour t.minute t.sec (microsOfFrac t.frac) with
        | .error m => .error m
        | .ok _ =>
          .ok (.datetime g.year g.month g.day t.hour t.minute t.sec
            (microsOfFrac t.frac) tz)

/-- `parse_localtime`: the standard-library `time` constructor
likewise validates its fields and raises `ValueError` uncaught. -/
def parseLocaltimeV (g : LTG) : Except String Value :=
  match timeCheck g.hour g.minute g.sec (microsOfFrac g.frac) with
  | .error m => .error m
  | .ok _ => .ok (.time g.hour g.minute g.sec (microsOfFrac g.frac))

/-- Exponent part of the decimal pattern: `[eE][+-]?D(_?D)*`, or
nothing. -/
def matchExpPart (cs : Chars) : Chars :=
  match cs with
  | e :: rest =>
    if e = 'e' || e = 'E' then
      match rest with
      | s :: rest2 =>
        if s = '+' || s = '-' then
          match rest2 with
          | d :: rest3 =>
            if d.isDigit then
              let (m, _) := manyUDigits Char.isDigit rest3
              e :: s :: d :: m
            else []
          | [] => []
        else if s.isDigit then
          let (m, _) := manyUDigits Char.isDigit rest2
          e :: s :: m
        else []
      | [] => []
    else []
  | [] => []

/-- Fraction-then-exponent part of the decimal pattern:
`(\.D(_?D)*)?` followed by the optional exponent. -/
def matchFracExp (cs : Chars) : Chars :=
  match cs with
  | '.' :: c :: rest =>
    if c.isDigit then
      let (m, r) := manyUDigits Char.isDigit rest
      '.' :: c :: m ++ matchExpPart r
    else matchExpPart ('.' :: c :: rest)
  | cs => matchExpPart cs

/-- Modelled from the spec: the generic decimal-integer-or-float
pattern (`RE_DEC_OR_FLOAT` of `tomli._re`, not among the sources): an
optional sign; `0` or a nonzero digit with optional single underscores
between further digits; optional fraction; optional exponent.  Returns
the matched text. -/
def matchDecOrFloat (cs : Chars) : Option Chars :=
  let sr :=
    match cs with
    | c :: rest => if c = '+' || c = '-' then (([c] : Chars), rest) else (([] : Chars), cs)
    | [] => (([] : Chars), cs)
  match sr.2 with
  | c :: rest =>
    if c = '0' then some (sr.1 ++ ['0'] ++ matchFracExp rest)
    else if c.isDigit then
      let (m, r1) := manyUDigits Char.isDigit rest
      some (sr.1 ++ (c :: m) ++ matchFracExp r1)
    else none
  | [] => none

/-- `parse_dec_or_float`: a dot or exponent character in the matched
text selects the pluggable float parser, else base-10 conversion. -/
def parseDecOrFloat (matchStr : Chars) (pf : ParseFloat) : Value :=
  if matchStr.contains '.' || matchStr.contains 'e' || matchStr.contains 'E' then
    pf matchStr
  else .int (decToInt matchStr)

/-- Octal digit. -/
def isOctDig (c : Char) : Bool := '0' ≤ c && c ≤ '7'

/-- Binary digit. -/
def isBinDig (c : Char) : Bool := c = '0' || c = '1'

/-- Modelled from the spec: hex-digit run with optional single
underscores (`RE_HEX` of `tomli._re`, not among the sources). -/
def matchHex (cs : Chars) : Option Chars :=
  match cs with
  | c :: rest =>
    if isHexDig c then
      let (m, _) := manyUDigits isHexDig rest
      some (c :: m)
    else none
  | [] => none

/-- Modelled from the spec: octal-digit run (`RE_OCT`). -/
def matchOct (cs : Chars) : Option Chars :=
  match cs with
  | c :: rest =>
    if isOctDig c then
      let (m, _) := manyUDigits isOctDig rest
      some (c :: m)
    else none
  | [] => none

/-- Modelled from the spec: binary-digit run (`RE_BIN`). -/
def matchBin (cs : Chars) : Option Chars :=
  match cs with
  | c :: rest =>
    if isBinDig c then
      let (m, _) := manyUDigits isBinDig rest
      some (c :: m)
    else none
  | [] => none

/-- Wrap a string-parser result into a string value. -/
def strRes (r : Except TOMLDecodeError (Nat × Chars)) :
    Except PyExn (Nat × Value) :=
  match r with
  | .error e => .error (.toml e)
  | .ok (p, s) => .ok (p, .str s)

/-! ## Parser state (`State`) -/

/-- The statement driver's state: the document tree (`state.out`), the
flag store (`state.flags`) and the active header namespace. -/
structure PState where
  out : Table
  flags : FTrie
  headerNamespace : Key

/-! ## Value parsing (`parse_value`, `parse_array`, `parse_inline_table`,
`parse_key_value_pair`).  Mutually recursive on an explicit fuel; any
fuel larger than twice the remaining input length is sufficient, since
at least one character is consumed per two nested calls. -/

mutual

/-- `parse_value`: prioritized dispatch on lookahead, in the order of
the source — strings, booleans, datetime pattern, local-time pattern,
non-decimal integers, the generic decimal pattern, arrays, inline
tables, special floats. -/
def parseValue (pf : ParseFloat) : Nat → Chars → Nat →
    Except PyExn (Nat × Value)
  | 0, src, pos => .error (.toml (suffixedErr src pos "Invalid value"))
  | fuel + 1, src, pos =>
    let c? := src.get? pos
    if c? = some '"' then
      strRes (if slice src (pos + 1) 2 = ['"', '"'] then parseMultilineStr src pos false
              else parseBasicStr src pos)
    else if c? = some '\'' then
      strRes (if slice src (pos + 1) 2 = ['\'', '\''] then parseMultilineStr src pos true
              else parseLiteralStr src pos)
    else if c? = some 't' && slice src (pos + 1) 3 = ['r', 'u', 'e'] then
      .ok (pos + 4, .bool true)
    else if c? = some 'f' && slice src (pos + 1) 4 = ['a', 'l', 's', 'e'] then
      .ok (pos + 5, .bool false)
    else
      match matchDatetime (src.drop pos) with
      | some g =>
        match parseDatetimeV g with
        | .ok v => .ok (pos + g.len, v)
        | .error m => .error (.valueError m)
      | none =>
        match matchLocalTime (src.drop pos) with
        | some g =>
          match parseLocaltimeV g with
          | .ok v => .ok (pos + g.len, v)
          | .error m => .error (.valueError m)
        | none =>
          if c? = some '0' && src.get? (pos + 1) = some 'x' then
            match matchHex (src.drop (pos + 2)) with
            | some txt =>
              .ok (pos + 2 + txt.length,
                   .int (baseToNat 16 (txt.filter (fun c => !(c == '_')))))
            | none => .error (.toml (suffixedErr src (pos + 2) "Unexpected sequence"))
          else if c? = some '0' && src.get? (pos + 1) = some 'o' then
            match matchOct (src.drop (pos + 2)) with
            | some txt =>
              .ok (pos + 2 + txt.length,
                   .int (baseToNat 8 (txt.filter (fun c => !(c == '_')))))
            | none => .error (.toml (suffixedErr src (pos + 2) "Unexpected sequence"))
          else if c? = some '0' && src.get? (pos + 1) = some 'b' then
            match matchBin (src.drop (pos + 2)) with
            | some txt =>
              .ok (pos + 2 + txt.length,
                   .int (baseToNat 2 (txt.filter (fun c => !(c == '_')))))
            | none => .error (.toml (suffixedErr src (pos + 2) "Unexpected sequence"))
          else
            match matchDecOrFloat (src.drop pos) with
            | some txt => .ok (pos + txt.length, parseDecOrFloat txt pf)
            | none =>
              if c? = some '[' then
                match parseArray pf fuel src pos with
                | .error e => .error e
                | .ok (p, xs) => .ok (p, .array xs)
              else if c? = some '{' then
                match parseInlineTable pf fuel src pos with
                | .error e => .error e
                | .ok (p, ts) => .ok (p, .table ts)
              else if slice src pos 3 = ['i', 'n', 'f'] || slice src pos 3 = ['n', 'a', 'n'] then
                .ok (pos + 3, pf (slice src pos 3))
              else if slice src pos 4 = ['-', 'i', 'n', 'f'] || slice src pos 4 = ['+', 'i', 'n', 'f'] ||
                  slice src pos 4 = ['-', 'n', 'a', 'n'] || slice src pos 4 = ['+', 'n', 'a', 'n'] then
                .ok (pos + 4, pf (slice src pos 4))
              else .error (.toml (suffixedErr src pos "Invalid value"))
termination_by structural fuel src pos => fuel

/-- `parse_array` up to its first element. -/
def parseArray (pf : ParseFloat) : Nat → Chars → Nat →
    Except PyExn (Nat × List Value)
  | 0, src, pos => .error (.toml (suffixedErr src pos "Invalid value"))
  | fuel + 1, src, pos =>
    match skipCommentsAndArrayWs src (pos + 1) with
    | .error e => .error (.toml e)
    | .ok p =>
      if slice src p 1 = [']'] then .ok (p + 1, [])
      else parseArrayItems pf fuel src p []
termination_by structural fuel src pos => fuel

/-- The element loop of `parse_array`. -/
def parseArrayItems (pf : ParseFloat) : Nat → Chars → Nat → List Value →
    Except PyExn (Nat × List Value)
  | 0, src, pos, _ => .error (.toml (suffixedErr src pos "Invalid value"))
  | fuel + 1, src, pos, acc =>
    match parseValue pf fuel src pos with
    | .error e => .error e
    | .ok (p1, v) =>
      match skipCommentsAndArrayWs src p1 with
      | .error e => .error (.toml e)
      | .ok p2 =>
        if slice src p2 1 = [']'] then .ok (p2 + 1, acc ++ [v])
        else if slice src p2 1 ≠ [','] then .error (.toml (suffixedErr src p2 "Unclosed array"))
        else
          match skipCommentsAndArrayWs src (p2 + 1) with
          | .error e => .error (.toml e)
          | .ok p3 =>
            if slice src p3 1 = [']'] then .ok (p3 + 1, acc ++ [v])
            else parseArrayItems pf fuel src p3 (acc ++ [v])
termination_by structural fuel src pos acc => fuel

/-- `parse_inline_table` up to its first pair. -/
def parseInlineTable (pf : ParseFloat) : Nat → Chars → Nat →
    Except PyExn (Nat × Table)
  | 0, src, pos => .error (.toml (suffixedErr src pos "Invalid value"))
  | fuel + 1, src, pos =>
    let pos1 := skipChars src (pos + 1) isTomlWs
    if slice src pos1 1 = ['}'] then .ok (pos1 + 1, [])
    else parseInlineTableItems pf fuel src pos1 [] []
termination_by structural fuel src pos => fuel

/-- The pair loop of `parse_inline_table`, carrying the local
`NestedDict` and the local `Flags` tracker of the inline table. -/
def parseInlineTableItems (pf : ParseFloat) : Nat → Chars → Nat → Table → FTrie →
    Except PyExn (Nat × Table)
  | 0, src, pos, _, _ => .error (.toml (suffixedErr src pos "Invalid value"))
  | fuel + 1, src, pos, nd, fl =>
    match parseKeyValuePair pf fuel src pos with
    | .error e => .error e
    | .ok (p1, key, value) =>
      if flagsIs fl key FROZEN then
        .error (.toml (suffixedErr src p1 "Can not mutate immutable namespace"))
      else
        match modifyNest nd key.dropLast false (fun nest =>
            match tget nest (key.getLastD []) with
            | some _ => (nest, true)
            | none => (tset nest (key.getLastD []) value, false)) with
        | .error _ => .error (.toml (suffixedErr src p1 "Can not overwrite a value"))
        | .ok (nd2, dup) =>
          if dup then .error (.toml (suffixedErr src p1 "Duplicate inline table key"))
          else
            let p2 := skipChars src p1 isTomlWs
            if slice src p2 1 = ['}'] then .ok (p2 + 1, nd2)
            else if slice src p2 1 ≠ [','] then
              .error (.toml (suffixedErr src p2 "Unclosed inline table"))
            else
              let fl2 := if value.isContainer then flagsSet fl key FROZEN true else fl
              parseInlineTableItems pf fuel src (skipChars src (p2 + 1) isTomlWs) nd2 fl2
termination_by structural fuel src pos nd fl => fuel

/-- `parse_key_value_pair`. -/
def parseKeyValuePair (pf : ParseFloat) : Nat → Chars → Nat →
    Except PyExn (Nat × Key × Value)
  | 0, src, pos => .error (.toml (suffixedErr src pos "Invalid value"))
  | fuel + 1, src, pos =>
    match parseKey src pos with
    | .error e => .error (.toml e)
    | .ok (p1, key) =>
      if src.get? p1 ≠ some '=' then
        .error (.toml (suffixedErr src p1 "Expected = after a key in a key-value pair"))
      else
        match parseValue pf fuel src (skipChars src (p1 + 1) isTomlWs) with
        | .error e => .error e
        | .ok (p3, value) => .ok (p3, key, value)
termination_by structural fuel src pos => fuel

end

/-! ## Statement rules and the statement driver -/

/-- `key_value_rule`: parse the pair, resolve the key against the
active namespace, reject frozen parents, lock header reopening of the
dotted segments, insert rejecting duplicates, and freeze container
values recursively. -/
def keyValueRule (pf : ParseFloat) (fuel : Nat) (src : Chars) (pos : Nat)
    (st : PState) : Except PyExn (Nat × PState) :=
  match parseKeyValuePair pf fuel src pos with
  | .error e => .error e
  | .ok (p1, key, value) =>
    let keyStem := key.getLastD []
    let absKeyParent := st.headerNamespace ++ key.dropLast
    let absKey := st.headerNamespace ++ key
    if flagsIs st.flags absKeyParent FROZEN then
      .error (.toml (suffixedErr src p1 "Can not mutate immutable namespace"))
    else
      let flags1 := flagsSetForRelativeKey st.flags st.headerNamespace key EXPLICIT_NEST
      match modifyNest st.out absKeyParent true (fun nest =>
          match tget nest keyStem with
          | some _ => (nest, true)
          | none => (tset nest keyStem value, false)) with
      | .error _ => .error (.toml (suffixedErr src p1 "Can not overwrite a value"))
      | .ok (out2, dup) =>
        if dup then .error (.toml (suffixedErr src p1 "Can not define key twice"))
        else
          let flags2 := if value.isContainer then flagsSet flags1 absKey FROZEN true else flags1
          .ok (p1, ⟨out2, flags2, st.headerNamespace⟩)

/-- `create_dict_rule` (`[table]` headers). -/
def createDictRule (src : Chars) (pos : Nat) (st : PState) :
    Except TOMLDecodeError (Nat × PState) :=
  let p0 := skipChars src (pos + 1) isTomlWs
  match parseKey src p0 with
  | .error e => .error e
  | .ok (p1, key) =>
    if flagsIs st.flags key EXPLICIT_NEST || flagsIs st.flags key FROZEN then
      .error (suffixedErr src p1 "Can not declare key twice")
    else
      let flags1 := flagsSet st.flags key EXPLICIT_NEST false
      match modifyNest st.out key true (fun nest => (nest, false)) with
      | .error _ => .error (suffixedErr src p1 "Can not overwrite a value")
      | .ok (out2, _) =>
        if slice src p1 1 ≠ [']'] then
          .error (suffixedErr src p1 "Expected right bracket at the end of a table declaration")
        else .ok (p1 + 1, ⟨out2, flags1, key⟩)

/-- `create_list_rule` (`[[array-of-tables]]` headers). -/
def createListRule (src : Chars) (pos : Nat) (st : PState) :
    Except TOMLDecodeError (Nat × PState) :=
  let p0 := skipChars src (pos + 2) isTomlWs
  match parseKey src p0 with
  | .error e => .error e
  | .ok (p1, key) =>
    if flagsIs st.flags key FROZEN then
      .error (suffixedErr src p1 "Can not mutate immutable namespace")
    else
      let flags1 := flagsSet (flagsUnsetAll st.flags key) key EXPLICIT_NEST false
      match modifyNest st.out key.dropLast true (fun nest =>
          match tget nest (key.getLastD []) with
          | none => (tset nest (key.getLastD []) (.array [.table []]), false)
          | some (.array xs) => (tset nest (key.getLastD []) (.array (xs ++ [.table []])), false)
          | some _ => (nest, true)) with
      | .error _ => .error (suffixedErr src p1 "Can not overwrite a value")
      | .ok (out2, notList) =>
        if notList then .error (suffixedErr src p1 "Can not overwrite a value")
        else if slice src p1 2 ≠ [']', ']'] then
          .error (suffixedErr src p1 "Expected double right bracket at the end of an array declaration")
        else .ok (p1 + 2, ⟨out2, flags1, key⟩)

/-- The statement loop of `loads`: skip leading whitespace, dispatch
on the next character (end of file, newline, comment, key/value,
`[[`-header, `[`-header), then require a newline or the end of the
document after the statement.  `vfuel` is the fuel handed to value
parsing; the loop's own fuel never runs out when it is at least the
remaining length plus one, since every iteration consumes a character. -/
def stepGo (pf : ParseFloat) (vfuel : Nat) (src : Chars) :
    Nat → Nat → PState → Except PyExn Table
  | 0, pos0, st =>
    let pos := skipChars src pos0 isTomlWs
    match src.get? pos with
    | none => .ok st.out
    | some _ => .error (.toml (suffixedErr src pos "Invalid statement"))
  | fuel + 1, pos0, st =>
    let pos := skipChars src pos0 isTomlWs
    match src.get? pos with
    | none => .ok st.out
    | some c =>
      if c = '\n' then stepGo pf vfuel src fuel (pos + 1) st
      else
        let r : Except PyExn (Nat × PState) :=
          if c = '#' then
            match expectComment src pos with
            | .error e => .error (.toml e)
            | .ok p => .ok (p, st)
          else if isKeyInitialChar c then keyValueRule pf vfuel src pos st
          else if slice src pos 2 = ['[', '['] then liftT (createListRule src pos st)
          else if c = '[' then liftT (createDictRule src pos st)
          else .error (.toml (suffixedErr src pos "Invalid statement"))
        match r with
        | .error e => .error e
        | .ok (p1, st2) =>
          match skipComment src (skipChars src p1 isTomlWs) with
          | .error e => .error (.toml e)
          | .ok p2 =>
            match src.get? p2 with
            | none => .ok st2.out
            | some c2 =>
              if c2 = '\n' then stepGo pf vfuel src fuel (p2 + 1) st2
              else .error (.toml (suffixedErr src p2 "Expected newline or end of document after a statement"))
termination_by structural fuel pos0 st => fuel

/-- `loads` with an explicit float parser. -/
def loadsWith (pf : ParseFloat) (s : String) : Except PyExn Table :=
  let src := normalize s.toList
  stepGo pf (2 * src.length + 8) src (src.length + 4) 0 ⟨[], [], []⟩

/-- `loads` with the default float parser. -/
def loads (s : String) : Except PyExn Table :=
  loadsWith defaultParseFloat s

/-! ## Auxiliary predicates used by the statements below -/

mutual

/-- The input from here on consists only of horizontal whitespace,
newlines and well-formed comments. -/
def blankList : Chars → Bool
  | [] => true
  | c :: rest =>
    if c = ' ' || c = '\t' || c = '\n' then blankList rest
    else if c = '#' then blankComment rest
    else false

/-- Inside a comment: legal comment characters up to the next newline
or the end of the input, followed by blank content. -/
def blankComment : Chars → Bool
  | [] => true
  | c :: rest =>
    if c = '\n' then blankList rest
    else if illegalCommentChar c then false
    else blankComment rest

end

/-- An error value carries coordinates produced by `suffixed_err`
against the given source: its rendered message is suffixed with the
`coordRepr` location of some position. -/
def Suffixed (src : Chars) (e : TOMLDecodeError) : Prop :=
  ∃ pos, e = suffixedErr src pos e.msg

/-- An exception escaping the value-parsing chain is either the public
error with `suffixed_err` coordinates, or a bare standard-library
`ValueError`. -/
def SuffixedOrVE (src : Chars) (e : PyExn) : Prop :=
  (∃ e0, e = .toml e0 ∧ Suffixed src e0) ∨ ∃ m, e = .valueError m

/-- A date or datetime value (the results of `parse_datetime`). -/
def Value.isDateTimeLike : Value → Bool
  | .date _ _ _ => true
  | .datetime _ _ _ _ _ _ _ _ => true
  | _ => false

/-- A time value (the result of `parse_localtime`). -/
def Value.isTimeVal : Value → Bool
  | .time _ _ _ _ => true
  | _ => false

/-- An integer or float value (the results of `parse_dec_or_float`). -/
def Value.isIntOrFloat : Value → Bool
  | .int _ => true
  | .float _ => true
  | _ => false

/-! # Helper lemmas -/

theorem flookup_fstore (cont : FTrie) (k : Chars) (n : FlagNode) :
    flookup (fstore cont k n) k = some n := by
  induction cont with
  | nil => simp [fstore, flookup]
  | cons p rest ih =>
    obtain ⟨k0, n0⟩ := p
    by_cases h : k0 = k
    · simp [fstore, h, flookup]
    · simp [fstore, h, flookup, ih]

theorem mem_addFlag (l : List Nat) (f : Nat) : f ∈ addFlag l f := by
  by_cases h : f ∈ l <;> simp [addFlag, h]

/-- Setting a flag recursively at a nonempty key makes the flag query
succeed at that key and at every key extending it. -/
theorem flagsIs_set_rec (a : Key) :
    ∀ (cont : FTrie) (ext : Key) (flag : Nat), a ≠ [] →
      flagsIs (flagsSet cont a flag true) (a ++ ext) flag = true := by
  induction a with
  | nil => intro cont ext flag h; exact absurd rfl h
  | cons k rest ih =>
    intro cont ext flag _
    cases rest with
    | nil =>
      cases ext with
      | nil =>
        simp [flagsSet, flagsIs, flookup_fstore, FlagNode.flags, FlagNode.recFlags,
          mem_addFlag]
      | cons e es =>
        simp [flagsSet, flagsIs, flookup_fstore, FlagNode.recFlags, mem_addFlag]
    | cons r rs =>
      rcases hn : (flookup cont k).getD (.mk [] [] []) with ⟨fs, rfs, nst⟩
      have h2 := ih nst ext flag (by simp)
      rw [List.cons_append] at h2
      simp only [flagsSet, flagsIs, List.cons_append, hn, flookup_fstore, FlagNode.nested,
        FlagNode.recFlags, FlagNode.flags]
      simp [h2]

theorem parseKeyGo_ne_nil (src : Chars) :
    ∀ (fuel pos : Nat) (acc : Key) (p : Nat) (k : Key),
      acc ≠ [] → parseKeyGo src fuel pos acc = .ok (p, k) → k ≠ [] := by
  intro fuel
  induction fuel with
  | zero =>
    intro pos acc p k hacc h
    simp [parseKeyGo] at h
    exact h.2 ▸ hacc
  | succ n ih =>
    intro pos acc p k hacc h
    simp only [parseKeyGo] at h
    split at h
    · split at h
      · exact absurd h (by simp)
      · exact ih _ _ _ _ (by simp) h
    · simp at h
      exact h.2 ▸ hacc

theorem parseKey_ne_nil (src : Chars) (pos p : Nat) (k : Key) :
    parseKey src pos = .ok (p, k) → k ≠ [] := by
  intro h
  simp only [parseKey] at h
  split at h
  · exact absurd h (by simp)
  · exact parseKeyGo_ne_nil src _ _ _ _ _ (by simp) h

theorem parseKeyValuePair_key_ne_nil (pf : ParseFloat) (fuel : Nat) (src : Chars)
    (pos p : Nat) (k : Key) (v : Value) :
    parseKeyValuePair pf fuel src pos = .ok (p, k, v) → k ≠ [] := by
  intro h
  match fuel with
  | 0 => simp [parseKeyValuePair] at h
  | n + 1 =>
    simp only [parseKeyValuePair] at h
    split at h
    · exact absurd h (by simp)
    · rename_i p1 key hkey
      split at h
      · exact absurd h (by simp)
      · split at h
        · exact absurd h (by simp)
        · simp at h
          exact h.2.1 ▸ parseKey_ne_nil src _ _ _ hkey

/-- When the nest view succeeds, `modifyNest` succeeds, applies `f` to
exactly the viewed nest, and reports the signal `f` computes there. -/
theorem modifyNest_of_view (key : Key) :
    ∀ (t : Table) (al : Bool) (f : Table → Table × Bool) (nest : Table),
      getNestView t key al = some nest →
      ∃ t2, modifyNest t key al f = .ok (t2, (f nest).2) := by
  induction key with
  | nil =>
    intro t al f nest h
    simp only [getNestView, Option.some.injEq] at h
    subst h
    exact ⟨(f t).1, rfl⟩
  | cons k rest ih =>
    intro t al f nest h
    cases hv : (tget t k).getD (.table []) with
    | str s => simp only [getNestView] at h; rw [hv] at h; simp at h
    | int n => simp only [getNestView] at h; rw [hv] at h; simp at h
    | float raw => simp only [getNestView] at h; rw [hv] at h; simp at h
    | bool b => simp only [getNestView] at h; rw [hv] at h; simp at h
    | date y mo d => simp only [getNestView] at h; rw [hv] at h; simp at h
    | time th tm ts tmi => simp only [getNestView] at h; rw [hv] at h; simp at h
    | datetime dy dmo dd dh dm ds dmi dtz =>
      simp only [getNestView] at h; rw [hv] at h; simp at h
    | array xs =>
      cases al with
      | false =>
        simp only [getNestView] at h; rw [hv] at h; simp at h
      | true =>
        simp only [getNestView] at h
        rw [hv] at h
        simp only [if_true] at h
        cases hlast : xs.getLast? with
        | none => rw [hlast] at h; simp at h
        | some v =>
          rw [hlast] at h
          cases v with
          | str s => simp at h
          | int n => simp at h
          | float raw => simp at h
          | bool b => simp at h
          | date y mo d => simp at h
          | time th tm ts tmi => simp at h
          | datetime dy dmo dd dh dm ds dmi dtz => simp at h
          | array ys => simp at h
          | table inner =>
            simp at h
            obtain ⟨t2, ht⟩ := ih inner true f nest h
            refine ⟨tset t k (.array (xs.dropLast ++ [.table t2])), ?_⟩
            simp only [modifyNest]
            rw [hv]
            simp [hlast, ht]
    | table inner =>
      simp only [getNestView] at h
      rw [hv] at h
      simp at h
      obtain ⟨t2, ht⟩ := ih inner al f nest h
      refine ⟨tset t k (.table t2), ?_⟩
      simp only [modifyNest]
      rw [hv]
      simp [ht]

theorem digitsToNat_append (xs ys : Chars) :
    digitsToNat (xs ++ ys) = ys.foldl (fun a c => a * 10 + digitVal c) (digitsToNat xs) := by
  simp [digitsToNat, List.foldl_append]

theorem digitsToNat_append_zeroes (xs : Chars) (k : Nat) :
    digitsToNat (xs ++ List.replicate k '0') = digitsToNat xs * 10 ^ k := by
  induction k with
  | zero => simp [digitsToNat]
  | succ n ihn =>
    rw [List.replicate_succ', ← List.append_assoc, digitsToNat_append]
    simp only [List.foldl_cons, List.foldl_nil]
    rw [ihn]
    have h0 : digitVal '0' = 0 := rfl
    rw [h0, pow_succ]
    ring

/-- A datetime match starts with a decimal digit. -/
theorem matchDatetime_head (cs : Chars) (g : DTG) (h : matchDatetime cs = some g) :
    ∃ c rest, cs = c :: rest ∧ c.isDigit = true := by
  cases cs with
  | nil => simp [matchDatetime, readNDigits, readNDigitsAux] at h
  | cons c rest =>
    by_cases hd : c.isDigit
    · exact ⟨c, rest, rfl, hd⟩
    · exfalso
      simp [matchDatetime, readNDigits, readNDigitsAux, hd] at h

/-- A local-time match starts with a decimal digit. -/
theorem matchLocalTime_head (cs : Chars) (g : LTG) (h : matchLocalTime cs = some g) :
    ∃ c rest, cs = c :: rest ∧ c.isDigit = true := by
  cases cs with
  | nil => simp [matchLocalTime, readNDigits, readNDigitsAux] at h
  | cons c rest =>
    by_cases hd : c.isDigit
    · exact ⟨c, rest, rfl, hd⟩
    · exfalso
      simp [matchLocalTime, readNDigits, readNDigitsAux, hd] at h

theorem get?_at_len (pre : Chars) (c : Char) (rest : Chars) :
    (pre ++ c :: rest).get? pre.length = some c := by
  rw [List.get?_eq_getElem?, List.getElem?_append_right (le_refl _)]
  simp

theorem drop_at_len_succ (pre : Chars) (c : Char) (rest : Chars) :
    (pre ++ c :: rest).drop (pre.length + 1) = rest := by
  induction pre with
  | nil => simp
  | cons p ps ih => simp [ih]

/-- Scanning the body of a multiline literal string: over characters
that are neither the delimiter nor illegal, `parse_string`'s loop
advances to the closing triple delimiter and returns the scanned
slice. -/
theorem parseStringGo_scan (body : Chars) :
    ∀ (pre tail acc : Chars) (startPos fuel : Nat),
      (∀ c ∈ body, ¬c = '\'' ∧ illegalMultilineLiteralStrChar c = false) →
      body.length + 1 ≤ fuel → startPos ≤ pre.length →
      parseStringGo (pre ++ body ++ '\'' :: '\'' :: '\'' :: tail) '\'' 3
        illegalMultilineLiteralStrChar none fuel pre.length startPos acc =
      .ok (pre.length + body.length + 3,
           acc ++ sliceTo (pre ++ body ++ '\'' :: '\'' :: '\'' :: tail) startPos
             (pre.length + body.length)) := by
  induction body with
  | nil =>
    intro pre tail acc startPos fuel hclean hfuel hstart
    match fuel with
    | f + 1 =>
      simp only [List.nil_append, List.append_nil] at *
      have hget : (pre ++ '\'' :: '\'' :: '\'' :: tail).get? pre.length = some '\'' :=
        get?_at_len pre '\'' ('\'' :: '\'' :: tail)
      have hdrop : (pre ++ '\'' :: '\'' :: '\'' :: tail).drop (pre.length + 1) =
          '\'' :: '\'' :: tail := drop_at_len_succ pre '\'' ('\'' :: '\'' :: tail)
      simp only [parseStringGo, hget, slice, hdrop]
      simp
  | cons b body' ih =>
    intro pre tail acc startPos fuel hclean hfuel hstart
    match fuel with
    | f + 1 =>
      have hb := hclean b (by simp)
      have hget : (pre ++ (b :: body') ++ '\'' :: '\'' :: '\'' :: tail).get? pre.length =
          some b := by
        have := get?_at_len pre b (body' ++ '\'' :: '\'' :: '\'' :: tail)
        simpa using this
      have hassoc : pre ++ (b :: body') ++ '\'' :: '\'' :: '\'' :: tail =
          (pre ++ [b]) ++ body' ++ '\'' :: '\'' :: '\'' :: tail := by simp
      have hr := ih (pre ++ [b]) tail acc startPos f
        (fun c hc => hclean c (by simp [hc]))
        (by simp only [List.length_cons] at hfuel ⊢; omega)
        (by simp; omega)
      simp only [List.length_append, List.length_cons, List.length_nil] at hr
      simp only [parseStringGo, hget, hb.1, hb.2]
      rw [hassoc]
      simp only [if_false]
      have e1 : pre.length + (b :: body').length = pre.length + 1 + body'.length := by
        simp only [List.length_cons]
        omega
      rw [e1]
      exact hr

theorem get?_shift (pre rest : Chars) (k : Nat) :
    (pre ++ rest).get? (pre.length + k) = rest.get? k := by
  rw [List.get?_eq_getElem?, List.get?_eq_getElem?,
    List.getElem?_append_right (by omega)]
  simp

/-- Evaluation of the multiline-literal body scan on a source made of
the opener, a clean body, and a closing sequence of three delimiters
followed by `tail`. -/
theorem parseString_lit (body tail : Chars)
    (hclean : ∀ c ∈ body, ¬c = '\'' ∧ illegalMultilineLiteralStrChar c = false)
    (fuel : Nat) (hf : body.length + 1 ≤ fuel) :
    parseStringGo (('\'' :: '\'' :: '\'' :: '\n' :: body) ++ ('\'' :: '\'' :: '\'' :: tail))
      '\'' 3 illegalMultilineLiteralStrChar none fuel 4 4 [] =
    .ok (body.length + 7, body) := by
  have hs := parseStringGo_scan body ['\'', '\'', '\'', '\n'] tail [] 4 fuel hclean hf
    (by simp)
  simp only [List.length_cons, List.length_nil] at hs
  have hsrc : (['\'', '\'', '\'', '\n'] : Chars) ++ body ++ '\'' :: '\'' :: '\'' :: tail =
      ('\'' :: '\'' :: '\'' :: '\n' :: body) ++ ('\'' :: '\'' :: '\'' :: tail) := by
    simp
  have hslice : sliceTo (('\'' :: '\'' :: '\'' :: '\n' :: body) ++ ('\'' :: '\'' :: '\'' :: tail))
      4 (4 + body.length) = body := by
    simp only [sliceTo]
    rw [show 4 + body.length - 4 = body.length by omega]
    rw [show ('\'' :: '\'' :: '\'' :: '\n' :: body) ++ ('\'' :: '\'' :: '\'' :: tail) =
      (['\'', '\'', '\'', '\n'] : Chars) ++ (body ++ ('\'' :: '\'' :: '\'' :: tail)) by simp]
    rw [show (4 : Nat) = (['\'', '\'', '\'', '\n'] : Chars).length from rfl, List.drop_left]
    exact List.take_left body _
  rw [hsrc, hslice] at hs
  rw [show 4 + body.length + 3 = body.length + 7 by omega] at hs
  simpa using hs

theorem drop_succ_of_get? (src : Chars) (pos : Nat) (c : Char)
    (h : src.get? pos = some c) : src.drop pos = c :: src.drop (pos + 1) := by
  rw [List.get?_eq_getElem?] at h
  have hn : pos < src.length := by
    by_contra hc
    simp [List.getElem?_eq_none (Nat.le_of_not_lt hc)] at h
  rw [List.drop_eq_getElem_cons hn]
  simp_all

theorem skipCharsGo_ge (src : Chars) (p : Char → Bool) :
    ∀ (f pos : Nat), pos ≤ skipCharsGo src p f pos := by
  intro f
  induction f with
  | zero => intro pos; simp [skipCharsGo]
  | succ n ih =>
    intro pos
    simp only [skipCharsGo]
    split
    · split
      · exact le_trans (by omega) (ih (pos + 1))
      · exact le_refl pos
    · exact le_refl pos

theorem skipCharsGo_stop (src : Chars) (p : Char → Bool) (f pos : Nat) (c : Char)
    (hget : src.get? pos = some c) (hc : p c = false) :
    skipCharsGo src p f pos = pos := by
  cases f with
  | zero => rfl
  | succ n =>
    simp only [skipCharsGo, hget, hc]
    simp

theorem skipUntilGo_ge (src : Chars) (e : Char) (eo : Char → Bool) (b : Bool)
    (msg : String) :
    ∀ (f pos q : Nat), skipUntilGo src e eo b msg f pos = .ok q → pos ≤ q := by
  intro f
  induction f with
  | zero => intro pos q h; simp [skipUntilGo] at h; omega
  | succ n ih =>
    intro pos q h
    simp only [skipUntilGo] at h
    split at h
    · split at h <;> simp at h <;> omega
    · split at h
      · simp at h; omega
      · split at h
        · simp at h
        · exact le_trans (by omega) (ih (pos + 1) q h)

/-- Skipping horizontal whitespace over blank content lands on blank
content whose next character is a newline, a comment sign, or the end
of the input. -/
theorem skipCharsGo_blank (src : Chars) :
    ∀ (f pos : Nat), src.length ≤ pos + f → blankList (src.drop pos) = true →
      blankList (src.drop (skipCharsGo src isTomlWs f pos)) = true ∧
      (src.get? (skipCharsGo src isTomlWs f pos) = none ∨
       src.get? (skipCharsGo src isTomlWs f pos) = some '\n' ∨
       src.get? (skipCharsGo src isTomlWs f pos) = some '#') := by
  intro f
  induction f with
  | zero =>
    intro pos hlen hb
    refine ⟨by simpa [skipCharsGo] using hb, .inl ?_⟩
    simp only [skipCharsGo]
    exact List.get?_eq_none.mpr (by omega)
  | succ n ih =>
    intro pos hlen hb
    cases hget : src.get? pos with
    | none =>
      have hstop : skipCharsGo src isTomlWs (n + 1) pos = pos := by
        simp only [skipCharsGo, hget]
      rw [hstop]
      exact ⟨hb, .inl hget⟩
    | some c =>
      have hdrop := drop_succ_of_get? src pos c hget
      rw [hdrop] at hb
      by_cases hws : isTomlWs c = true
      · have hb2 : blankList (src.drop (pos + 1)) = true := by
          have hcc : c = ' ' ∨ c = '\t' := by
            simp [isTomlWs] at hws
            tauto
          rcases hcc with h | h <;> subst h <;> simpa [blankList] using hb
        have hstep : skipCharsGo src isTomlWs (n + 1) pos =
            skipCharsGo src isTomlWs n (pos + 1) := by
          simp only [skipCharsGo, hget, hws, if_true]
        rw [hstep]
        exact ih (pos + 1) (by omega) hb2
      · have hwsf : isTomlWs c = false := by simpa using hws
        have hA : ¬c = ' ' := by
          intro h
          subst h
          simp [isTomlWs] at hwsf
        have hB : ¬c = '\t' := by
          intro h
          subst h
          simp [isTomlWs] at hwsf
        have hstop := skipCharsGo_stop src isTomlWs (n + 1) pos c hget hwsf
        rw [hstop, hdrop]
        refine ⟨hb, ?_⟩
        have hcn : c = '\n' ∨ c = '#' := by
          by_contra hcon
          push_neg at hcon
          obtain ⟨h1, h2⟩ := hcon
          simp only [blankList] at hb
          rw [if_neg (by simp [hA, hB, h1])] at hb
          rw [if_neg (by simpa using h2)] at hb
          exact absurd hb (by simp)
        rcases hcn with h | h <;> subst h
        · exact .inr (.inl hget)
        · exact .inr (.inr hget)

/-- Scanning a well-formed comment ends at a newline followed by blank
content, or at the end of the input. -/
theorem skipUntilGo_blankComment (src : Chars) (msg : String) :
    ∀ (f pos : Nat), src.length ≤ pos + f →
      blankComment (src.drop pos) = true →
      ∃ q, skipUntilGo src '\n' illegalCommentChar false msg f pos = .ok q ∧
        pos ≤ q ∧
        (src.get? q = none ∨
         (src.get? q = some '\n' ∧ blankList (src.drop (q + 1)) = true)) := by
  intro f
  induction f with
  | zero =>
    intro pos hlen hb
    exact ⟨pos, by simp [skipUntilGo], le_refl pos,
      .inl (List.get?_eq_none.mpr (by omega))⟩
  | succ n ih =>
    intro pos hlen hb
    cases hget : src.get? pos with
    | none =>
      refine ⟨pos, ?_, le_refl pos, .inl hget⟩
      simp only [skipUntilGo, hget]
      simp
    | some c =>
      have hdrop := drop_succ_of_get? src pos c hget
      rw [hdrop] at hb
      by_cases hnl : c = '\n'
      · subst hnl
        refine ⟨pos, ?_, le_refl pos, .inr ⟨hget, ?_⟩⟩
        · simp only [skipUntilGo, hget]
          simp
        · simpa [blankComment] using hb
      · simp only [blankComment, if_neg hnl] at hb
        have hill : illegalCommentChar c = false := by
          by_contra hcon
          rw [Bool.not_eq_false] at hcon
          rw [hcon] at hb
          simp at hb
        rw [if_neg (by simp [hill])] at hb
        obtain ⟨q, hq, hge, hrest⟩ := ih (pos + 1) (by omega) hb
        refine ⟨q, ?_, by omega, hrest⟩
        simp only [skipUntilGo, hget]
        rw [if_neg hnl, if_neg (by simp [hill])]
        exact hq

theorem skipCharsGo_none (src : Chars) (p : Char → Bool) (f q : Nat)
    (hget : src.get? q = none) : skipCharsGo src p f q = q := by
  cases f with
  | zero => rfl
  | succ n => simp only [skipCharsGo, hget]

/-- The statement loop consumes blank content (whitespace, newlines,
well-formed comments) without touching the state and succeeds at the
end of the input. -/
theorem stepGo_blank (pf : ParseFloat) (vfuel : Nat) (src : Chars) :
    ∀ (fuel pos0 : Nat) (st : PState),
      src.length ≤ pos0 + fuel →
      blankList (src.drop pos0) = true →
      stepGo pf vfuel src fuel pos0 st = .ok st.out := by
  intro fuel
  induction fuel with
  | zero =>
    intro pos0 st hlen hb
    have hge := skipCharsGo_ge src isTomlWs (src.length + 1) pos0
    have hnone : src.get? (skipCharsGo src isTomlWs (src.length + 1) pos0) = none := by
      apply List.get?_eq_none.mpr
      omega
    rw [stepGo]
    simp only [skipChars, hnone]
  | succ n ih =>
    intro pos0 st hlen hb
    have hge := skipCharsGo_ge src isTomlWs (src.length + 1) pos0
    obtain ⟨hb1, hnext⟩ := skipCharsGo_blank src (src.length + 1) pos0 (by omega) hb
    rcases hnext with hnone | hnl | hcomment
    · rw [stepGo]
      simp only [skipChars, hnone]
    · rw [stepGo]
      simp only [skipChars, hnl]
      have hb2 : blankList (src.drop (skipCharsGo src isTomlWs (src.length + 1) pos0 + 1)) = true := by
        have hdrop := drop_succ_of_get? src _ _ hnl
        rw [hdrop] at hb1
        simpa [blankList] using hb1
      exact ih _ st (by omega) hb2
    · have hbc : blankComment (src.drop (skipCharsGo src isTomlWs (src.length + 1) pos0 + 1)) = true := by
        have hdrop := drop_succ_of_get? src _ _ hcomment
        rw [hdrop] at hb1
        simpa [blankList] using hb1
      obtain ⟨q, hq, hqge, hqrest⟩ := skipUntilGo_blankComment src "Expected newline"
        (src.length + 1) (skipCharsGo src isTomlWs (src.length + 1) pos0 + 1)
        (by omega) hbc
      rw [stepGo]
      simp only [skipChars, hcomment]
      simp only [if_true]
      simp only [expectComment, skipUntil, skipChars, hq]
      rw [if_neg (show ¬('#' = '\n') by decide)]
      rcases hqrest with hqnone | ⟨hqnl, hqblank⟩
      · rw [skipCharsGo_none src isTomlWs _ q hqnone]
        simp only [skipComment, hqnone]
      · rw [skipCharsGo_stop src isTomlWs _ q '\n' hqnl (by decide)]
        have hsc : skipComment src q = .ok q := by
          simp only [skipComment, hqnl]
          rfl
        rw [hsc]
        simp only [hqnl, if_pos rfl]
        exact ih (q + 1) st (by omega) hqblank

/-! ## Every error is produced by `suffixed_err` (for claim C4) -/

theorem errS_skipUntilGo (src : Chars) (ec : Char) (eo : Char → Bool) (b : Bool)
    (msg : String) :
    ∀ (f pos : Nat) (e : TOMLDecodeError),
      skipUntilGo src ec eo b msg f pos = .error e → Suffixed src e := by
  intro f
  induction f with
  | zero =>
    intro pos e h
    simp [skipUntilGo] at h
  | succ n ih =>
    intro pos e h
    simp only [skipUntilGo] at h
    split at h
    · split at h
      · cases h
        exact ⟨_, rfl⟩
      · simp at h
    · split at h
      · simp at h
      · split at h
        · cases h
          exact ⟨_, rfl⟩
        · exact ih _ _ h

theorem errS_skipUntil (src : Chars) (pos : Nat) (ec : Char) (eo : Char → Bool)
    (b : Bool) (msg : String) (e : TOMLDecodeError) :
    skipUntil src pos ec eo b msg = .error e → Suffixed src e :=
  errS_skipUntilGo src ec eo b msg _ pos e

theorem errS_expectComment (src : Chars) (pos : Nat) (e : TOMLDecodeError) :
    expectComment src pos = .error e → Suffixed src e :=
  errS_skipUntil src (pos + 1) '\n' illegalCommentChar false "Expected newline" e

theorem errS_skipComment (src : Chars) (pos : Nat) (e : TOMLDecodeError) :
    skipComment src pos = .error e → Suffixed src e := by
  intro h
  simp only [skipComment] at h
  split at h
  · exact errS_expectComment src pos e h
  · simp at h

theorem errS_skipCommentsAndArrayWsGo (src : Chars) :
    ∀ (f pos : Nat) (e : TOMLDecodeError),
      skipCommentsAndArrayWsGo src f pos = .error e → Suffixed src e := by
  intro f
  induction f with
  | zero =>
    intro pos e h
    simp [skipCommentsAndArrayWsGo] at h
  | succ n ih =>
    intro pos e h
    simp only [skipCommentsAndArrayWsGo] at h
    split at h
    · rename_i e1 heq
      cases h
      exact errS_skipComment src _ _ heq
    · split at h
      · simp at h
      · exact ih _ _ h

theorem errS_skipCommentsAndArrayWs (src : Chars) (pos : Nat) (e : TOMLDecodeError) :
    skipCommentsAndArrayWs src pos = .error e → Suffixed src e :=
  errS_skipCommentsAndArrayWsGo src _ pos e

theorem errS_parseHexChar (src : Chars) (pos n : Nat) (e : TOMLDecodeError) :
    parseHexChar src pos n = .error e → Suffixed src e := by
  intro h
  simp only [parseHexChar] at h
  split at h
  · cases h
    exact ⟨_, rfl⟩
  · split at h
    · cases h
      exact ⟨_, rfl⟩
    · simp at h

theorem errS_parseBasicStrEscape (src : Chars) (pos : Nat) (m : Bool)
    (e : TOMLDecodeError) :
    parseBasicStrEscape src pos m = .error e → Suffixed src e := by
  intro h
  simp only [parseBasicStrEscape] at h
  split at h
  · split at h
    · split at h
      · simp at h
      · split at h
        · cases h
          exact ⟨_, rfl⟩
        · simp at h
    · simp at h
  · split at h
    · simp at h
    · split at h
      · exact errS_parseHexChar src _ 4 e h
      · split at h
        · exact errS_parseHexChar src _ 8 e h
        · split at h
          · cases h
            exact ⟨_, rfl⟩
          · cases h
            exact ⟨_, rfl⟩

theorem errS_parseStringGo (src : Chars) (d : Char) (dl : Nat) (eo : Char → Bool)
    (esc : Option Bool) :
    ∀ (f pos sp : Nat) (acc : Chars) (e : TOMLDecodeError),
      parseStringGo src d dl eo esc f pos sp acc = .error e → Suffixed src e := by
  intro f
  induction f with
  | zero =>
    intro pos sp acc e h
    simp only [parseStringGo] at h
    cases h
    exact ⟨_, rfl⟩
  | succ n ih =>
    intro pos sp acc e h
    simp only [parseStringGo] at h
    split at h
    · cases h
      exact ⟨_, rfl⟩
    · split at h
      · split at h
        · simp at h
        · exact ih _ _ _ _ h
      · split at h
        · split at h
          · split at h
            · rename_i e1 heq
              cases h
              exact errS_parseBasicStrEscape src _ _ _ heq
            · exact ih _ _ _ _ h
          · split at h
            · cases h
              exact ⟨_, rfl⟩
            · exact ih _ _ _ _ h
        · split at h
          · cases h
            exact ⟨_, rfl⟩
          · exact ih _ _ _ _ h

theorem errS_parseString (src : Chars) (pos : Nat) (d : Char) (dl : Nat)
    (eo : Char → Bool) (esc : Option Bool) (e : TOMLDecodeError) :
    parseString src pos d dl eo esc = .error e → Suffixed src e :=
  errS_parseStringGo src d dl eo esc _ pos pos [] e

theorem errS_parseLiteralStr (src : Chars) (pos : Nat) (e : TOMLDecodeError) :
    parseLiteralStr src pos = .error e → Suffixed src e := by
  intro h
  simp only [parseLiteralStr] at h
  split at h
  · rename_i e1 heq
    cases h
    exact errS_skipUntil src _ _ _ _ _ _ heq
  · simp at h

theorem errS_parseBasicStr (src : Chars) (pos : Nat) (e : TOMLDecodeError) :
    parseBasicStr src pos = .error e → Suffixed src e :=
  errS_parseString src (pos + 1) '"' 1 illegalBasicStrChar (some false) e

theorem errS_parseMultilineStr (src : Chars) (pos : Nat) (lit : Bool)
    (e : TOMLDecodeError) :
    parseMultilineStr src pos lit = .error e → Suffixed src e := by
  intro h
  simp only [parseMultilineStr] at h
  split at h
  · rename_i e1 heq
    cases h
    exact errS_parseString src _ _ _ _ _ _ heq
  · repeat' split at h
    all_goals simp at h

theorem errS_parseKeyPart (src : Chars) (pos : Nat) (e : TOMLDecodeError) :
    parseKeyPart src pos = .error e → Suffixed src e := by
  intro h
  simp only [parseKeyPart] at h
  split at h
  · split at h
    · simp at h
    · split at h
      · exact errS_parseLiteralStr src _ _ h
      · split at h
        · exact errS_parseBasicStr src _ _ h
        · cases h
          exact ⟨_, rfl⟩
  · cases h
    exact ⟨_, rfl⟩

theorem errS_parseKeyGo (src : Chars) :
    ∀ (f pos : Nat) (acc : Key) (e : TOMLDecodeError),
      parseKeyGo src f pos acc = .error e → Suffixed src e := by
  intro f
  induction f with
  | zero =>
    intro pos acc e h
    simp [parseKeyGo] at h
  | succ n ih =>
    intro pos acc e h
    simp only [parseKeyGo] at h
    split at h
    · split at h
      · rename_i e1 heq
        cases h
        exact errS_parseKeyPart src _ _ heq
      · exact ih _ _ _ h
    · simp at h

theorem errS_parseKey (src : Chars) (pos : Nat) (e : TOMLDecodeError) :
    parseKey src pos = .error e → Suffixed src e := by
  intro h
  simp only [parseKey] at h
  split at h
  · rename_i e1 heq
    cases h
    exact errS_parseKeyPart src _ _ heq
  · exact errS_parseKeyGo src _ _ _ _ h

/-- A public error with `suffixed_err` coordinates, as an escaping
exception. -/
theorem sve_toml (src : Chars) (pos : Nat) (msg : String) :
    SuffixedOrVE src (.toml (suffixedErr src pos msg)) :=
  .inl ⟨suffixedErr src pos msg, rfl, pos, rfl⟩

/-- A bare `ValueError`, as an escaping exception. -/
theorem sve_ve (src : Chars) (m : String) :
    SuffixedOrVE src (.valueError m) :=
  .inr ⟨m, rfl⟩

/-- Lift a `Suffixed` public error into the exception sum. -/
theorem sve_of_suffixed (src : Chars) (e : TOMLDecodeError) (h : Suffixed src e) :
    SuffixedOrVE src (.toml e) :=
  .inl ⟨e, rfl, h⟩

theorem liftT_error {α : Type} (r : Except TOMLDecodeError α) (e : PyExn)
    (h : liftT r = .error e) : ∃ e0, e = .toml e0 ∧ r = .error e0 := by
  cases r with
  | error e0 =>
    simp only [liftT] at h
    cases h
    exact ⟨e0, rfl, rfl⟩
  | ok a =>
    simp only [liftT] at h
    exact Except.noConfusion h

theorem strRes_error (r : Except TOMLDecodeError (Nat × Chars)) (e : PyExn)
    (h : strRes r = .error e) : ∃ e0, e = .toml e0 ∧ r = .error e0 := by
  cases r with
  | error e0 =>
    simp only [strRes] at h
    cases h
    exact ⟨e0, rfl, rfl⟩
  | ok v =>
    obtain ⟨p, s⟩ := v
    simp only [strRes] at h
    exact Except.noConfusion h

/-- Every error of the mutually recursive value parsers is the public
error produced by `suffixed_err`, or a bare `ValueError` from the
datetime constructors. -/
theorem errS_valueBlock (pf : ParseFloat) :
    ∀ fuel : Nat,
      (∀ (src : Chars) (pos : Nat) (e : PyExn),
        parseValue pf fuel src pos = .error e → SuffixedOrVE src e)
      ∧ (∀ (src : Chars) (pos : Nat) (e : PyExn),
        parseArray pf fuel src pos = .error e → SuffixedOrVE src e)
      ∧ (∀ (src : Chars) (pos : Nat) (acc : List Value) (e : PyExn),
        parseArrayItems pf fuel src pos acc = .error e → SuffixedOrVE src e)
      ∧ (∀ (src : Chars) (pos : Nat) (e : PyExn),
        parseInlineTable pf fuel src pos = .error e → SuffixedOrVE src e)
      ∧ (∀ (src : Chars) (pos : Nat) (nd : Table) (fl : FTrie) (e : PyExn),
        parseInlineTableItems pf fuel src pos nd fl = .error e → SuffixedOrVE src e)
      ∧ (∀ (src : Chars) (pos : Nat) (e : PyExn),
        parseKeyValuePair pf fuel src pos = .error e → SuffixedOrVE src e) := by
  intro fuel
  induction fuel with
  | zero =>
    refine ⟨?_, ?_, ?_, ?_, ?_, ?_⟩
    · intro src pos e h
      simp only [parseValue] at h
      cases h
      exact sve_toml src pos _
    · intro src pos e h
      simp only [parseArray] at h
      cases h
      exact sve_toml src pos _
    · intro src pos acc e h
      simp only [parseArrayItems] at h
      cases h
      exact sve_toml src pos _
    · intro src pos e h
      simp only [parseInlineTable] at h
      cases h
      exact sve_toml src pos _
    · intro src pos nd fl e h
      simp only [parseInlineTableItems] at h
      cases h
      exact sve_toml src pos _
    · intro src pos e h
      simp only [parseKeyValuePair] at h
      cases h
      exact sve_toml src pos _
  | succ n ih =>
    obtain ⟨ihV, ihA, ihAI, ihIT, ihITI, ihKV⟩ := ih
    refine ⟨?_, ?_, ?_, ?_, ?_, ?_⟩
    · intro src pos e h
      unfold parseValue at h
      by_cases hq : src.get? pos = some '\"'
      · rw [if_pos hq] at h
        obtain ⟨e0, rfl, h2⟩ := strRes_error _ _ h
        split at h2
        · exact sve_of_suffixed src _ (errS_parseMultilineStr src _ _ _ h2)
        · exact sve_of_suffixed src _ (errS_parseBasicStr src _ _ h2)
      · rw [if_neg hq] at h
        by_cases ha : src.get? pos = some '\''
        · rw [if_pos ha] at h
          obtain ⟨e0, rfl, h2⟩ := strRes_error _ _ h
          split at h2
          · exact sve_of_suffixed src _ (errS_parseMultilineStr src _ _ _ h2)
          · exact sve_of_suffixed src _ (errS_parseLiteralStr src _ _ h2)
        · rw [if_neg ha] at h
          split at h
          · exact Except.noConfusion h
          · split at h
            · exact Except.noConfusion h
            · split at h
              · split at h
                · exact Except.noConfusion h
                · cases h
                  exact sve_ve src _
              · split at h
                · split at h
                  · exact Except.noConfusion h
                  · cases h
                    exact sve_ve src _
                · split at h
                  · split at h
                    · exact Except.noConfusion h
                    · cases h
                      exact sve_toml src _ _
                  · split at h
                    · split at h
                      · exact Except.noConfusion h
                      · cases h
                        exact sve_toml src _ _
                    · split at h
                      · split at h
                        · exact Except.noConfusion h
                        · cases h
                          exact sve_toml src _ _
                      · split at h
                        · exact Except.noConfusion h
                        · split at h
                          · split at h
                            · rename_i e1 heq
                              cases h
                              exact ihA _ _ _ heq
                            · exact Except.noConfusion h
                          · split at h
                            · split at h
                              · rename_i e1 heq
                                cases h
                                exact ihIT _ _ _ heq
                              · exact Except.noConfusion h
                            · split at h
                              · exact Except.noConfusion h
                              · split at h
                                · exact Except.noConfusion h
                                · cases h
                                  exact sve_toml src _ _
    · intro src pos e h
      simp only [parseArray] at h
      split at h
      · rename_i e1 heq
        cases h
        exact sve_of_suffixed src _ (errS_skipCommentsAndArrayWs src _ _ heq)
      · split at h
        · simp at h
        · exact ihAI _ _ _ _ h
    · intro src pos acc e h
      simp only [parseArrayItems] at h
      split at h
      · rename_i e1 heq
        cases h
        exact ihV _ _ _ heq
      · split at h
        · rename_i e1 heq
          cases h
          exact sve_of_suffixed src _ (errS_skipCommentsAndArrayWs src _ _ heq)
        · split at h
          · simp at h
          · split at h
            · cases h
              exact sve_toml src _ _
            · split at h
              · rename_i e1 heq
                cases h
                exact sve_of_suffixed src _ (errS_skipCommentsAndArrayWs src _ _ heq)
              · split at h
                · simp at h
                · exact ihAI _ _ _ _ h
    · intro src pos e h
      simp only [parseInlineTable] at h
      split at h
      · simp at h
      · exact ihITI _ _ _ _ _ h
    · intro src pos nd fl e h
      simp only [parseInlineTableItems] at h
      split at h
      · rename_i e1 heq
        cases h
        exact ihKV _ _ _ heq
      · split at h
        · cases h
          exact sve_toml src _ _
        · split at h
          · cases h
            exact sve_toml src _ _
          · split at h
            · cases h
              exact sve_toml src _ _
            · split at h
              · simp at h
              · split at h
                · cases h
                  exact sve_toml src _ _
                · exact ihITI _ _ _ _ _ h
    · intro src pos e h
      simp only [parseKeyValuePair] at h
      split at h
      · rename_i e1 heq
        cases h
        exact sve_of_suffixed src _ (errS_parseKey src _ _ heq)
      · split at h
        · cases h
          exact sve_toml src _ _
        · split at h
          · rename_i e1 heq
            cases h
            exact ihV _ _ _ heq
          · simp at h

theorem errS_keyValueRule (pf : ParseFloat) (fuel : Nat) (src : Chars) (pos : Nat)
    (st : PState) (e : PyExn) :
    keyValueRule pf fuel src pos st = .error e → SuffixedOrVE src e := by
  intro h
  simp only [keyValueRule] at h
  split at h
  · rename_i e1 heq
    cases h
    exact (errS_valueBlock pf fuel).2.2.2.2.2 _ _ _ heq
  · split at h
    · cases h
      exact sve_toml src _ _
    · split at h
      · cases h
        exact sve_toml src _ _
      · split at h
        · cases h
          exact sve_toml src _ _
        · exact Except.noConfusion h

theorem errS_createDictRule (src : Chars) (pos : Nat) (st : PState)
    (e : TOMLDecodeError) :
    createDictRule src pos st = .error e → Suffixed src e := by
  intro h
  simp only [createDictRule] at h
  split at h
  · rename_i e1 heq
    cases h
    exact errS_parseKey src _ _ heq
  · split at h
    · cases h
      exact ⟨_, rfl⟩
    · split at h
      · cases h
        exact ⟨_, rfl⟩
      · split at h
        · cases h
          exact ⟨_, rfl⟩
        · exact Except.noConfusion h

theorem errS_createListRule (src : Chars) (pos : Nat) (st : PState)
    (e : TOMLDecodeError) :
    createListRule src pos st = .error e → Suffixed src e := by
  intro h
  simp only [createListRule] at h
  split at h
  · rename_i e1 heq
    cases h
    exact errS_parseKey src _ _ heq
  · split at h
    · cases h
      exact ⟨_, rfl⟩
    · split at h
      · cases h
        exact ⟨_, rfl⟩
      · split at h
        · cases h
          exact ⟨_, rfl⟩
        · split at h
          · cases h
            exact ⟨_, rfl⟩
          · exact Except.noConfusion h

theorem errS_stepGo (pf : ParseFloat) (vfuel : Nat) (src : Chars) :
    ∀ (fuel pos0 : Nat) (st : PState) (e : PyExn),
      stepGo pf vfuel src fuel pos0 st = .error e → SuffixedOrVE src e := by
  intro fuel
  induction fuel with
  | zero =>
    intro pos0 st e h
    rw [stepGo] at h
    split at h
    · exact Except.noConfusion h
    · cases h
      exact sve_toml src _ _
  | succ n ih =>
    intro pos0 st e h
    rw [stepGo] at h
    split at h
    · exact Except.noConfusion h
    · split at h
      · exact ih _ _ _ h
      · simp only [] at h
        split at h
        · rename_i e1 heq
          cases h
          split at heq
          · split at heq
            · rename_i e2 heq2
              cases heq
              exact sve_of_suffixed src _ (errS_expectComment src _ _ heq2)
            · exact Except.noConfusion heq
          · split at heq
            · exact errS_keyValueRule pf vfuel src _ st _ heq
            · split at heq
              · obtain ⟨e0, rfl, hr⟩ := liftT_error _ _ heq
                exact sve_of_suffixed src _ (errS_createListRule src _ st _ hr)
              · split at heq
                · obtain ⟨e0, rfl, hr⟩ := liftT_error _ _ heq
                  exact sve_of_suffixed src _ (errS_createDictRule src _ st _ hr)
                · cases heq
                  exact sve_toml src _ _
        · split at h
          · rename_i e1 heq1
            cases h
            exact sve_of_suffixed src _ (errS_skipComment src _ _ heq1)
          · split at h
            · exact Except.noConfusion h
            · split at h
              · exact ih _ _ _ h
              · cases h
                exact sve_toml src _ _

/-! # Claims -/

/-- C1: once a key's value is a container (inline table or array), the
key-value rule marks that absolute key FROZEN recursively, the flag
query sees the flag at the key itself and at every extension, and
every later statement targeting the key or anything beneath it — a
key-value assignment, a `[table]` header, or an `[[array]]` header —
errors.  Conjuncts: (1) a recursive flag set at a nonempty key is seen
at the key and every extension; (2) the key-value rule errors when the
absolute parent of its key is FROZEN; (3) the table-header rule errors
when its key is FROZEN; (4) the array-header rule errors when its key
is FROZEN; (5) a successful key-value assignment of a container value
leaves FROZEN visible at the absolute key and every extension;
(6) concrete documents: after `a = {x = 1}` the statements `a.x = 2`,
`a.y = 2`, `[a.y]`, `[[a.z]]` each make `loads` error, and likewise
after `a = [1]`. -/
theorem claim_C1 :
    (∀ (cont : FTrie) (a ext : Key) (flag : Nat), a ≠ [] →
      flagsIs (flagsSet cont a flag true) (a ++ ext) flag = true)
    ∧ (∀ (pf : ParseFloat) (fuel : Nat) (src : Chars) (pos : Nat) (st : PState)
        (p1 : Nat) (key : Key) (value : Value),
        parseKeyValuePair pf fuel src pos = .ok (p1, key, value) →
        flagsIs st.flags (st.headerNamespace ++ key.dropLast) FROZEN = true →
        isErr (keyValueRule pf fuel src pos st) = true)
    ∧ (∀ (src : Chars) (pos : Nat) (st : PState) (p1 : Nat) (key : Key),
        parseKey src (skipChars src (pos + 1) isTomlWs) = .ok (p1, key) →
        flagsIs st.flags key FROZEN = true →
        isErr (createDictRule src pos st) = true)
    ∧ (∀ (src : Chars) (pos : Nat) (st : PState) (p1 : Nat) (key : Key),
        parseKey src (skipChars src (pos + 2) isTomlWs) = .ok (p1, key) →
        flagsIs st.flags key FROZEN = true →
        isErr (createListRule src pos st) = true)
    ∧ (∀ (pf : ParseFloat) (fuel : Nat) (src : Chars) (pos : Nat) (st : PState)
        (p1 : Nat) (key : Key) (value : Value) (r : Nat × PState),
        parseKeyValuePair pf fuel src pos = .ok (p1, key, value) →
        keyValueRule pf fuel src pos st = .ok r →
        value.isContainer = true →
        ∀ ext : Key,
          flagsIs r.2.flags ((st.headerNamespace ++ key) ++ ext) FROZEN = true)
    ∧ (isErr (loads "a = \x7bx = 1\x7d\na.x = 2") = true
       ∧ isErr (loads "a = \x7bx = 1\x7d\na.y = 2") = true
       ∧ isErr (loads "a = \x7bx = 1\x7d\n[a.y]") = true
       ∧ isErr (loads "a = \x7bx = 1\x7d\n[[a.z]]") = true
       ∧ isErr (loads "a = [1]\na.b = 2") = true) := by
  refine ⟨fun cont a ext flag h => flagsIs_set_rec a cont ext flag h,
    ?_, ?_, ?_, ?_, rfl, rfl, rfl, rfl, rfl⟩
  · intro pf fuel src pos st p1 key value hkv hfr
    simp only [keyValueRule, hkv]
    simp [hfr, isErr]
  · intro src pos st p1 key hk hfr
    simp only [createDictRule, hk]
    simp [hfr, isErr]
  · intro src pos st p1 key hk hfr
    simp only [createListRule, hk]
    simp [hfr, isErr]
  · intro pf fuel src pos st p1 key value r hkv hok hcont ext
    have hkey : key ≠ [] := parseKeyValuePair_key_ne_nil pf fuel src pos p1 key value hkv
    have habs : st.headerNamespace ++ key ≠ [] := by
      intro hcontra
      exact hkey (List.append_eq_nil.mp hcontra).2
    simp only [keyValueRule, hkv] at hok
    split at hok
    · exact absurd hok (by simp)
    · split at hok
      · exact absurd hok (by simp)
      · split at hok
        · exact absurd hok (by simp)
        · try simp only [hcont, if_true] at hok
          cases hok
          exact flagsIs_set_rec _ _ ext FROZEN habs

/-- C1 witness: the recursive-flag conjunct and the frozen-parent
conjunct applied at concrete inputs. -/
theorem claim_C1_witness :
    flagsIs (flagsSet [] [['a']] 0 true) ([['a']] ++ [['x']]) 0 = true ∧
    isErr (keyValueRule defaultParseFloat 20 ['a', '.', 'x', ' ', '=', ' ', '2'] 0
      ⟨[], flagsSet [] [['a']] FROZEN true, []⟩) = true :=
  ⟨claim_C1.1 [] [['a']] [['x']] 0 (by decide),
   claim_C1.2.1 defaultParseFloat 20 ['a', '.', 'x', ' ', '=', ' ', '2'] 0
     ⟨[], flagsSet [] [['a']] FROZEN true, []⟩ 7 [['a'], ['x']] (.int 2) rfl rfl⟩

/-- C3: re-declaring a table header errors (`[a]` twice), while
repeating an array-of-tables header appends: `[[a]]` twice yields
`{"a": [{}, {}]}`. -/
theorem claim_C3 :
    isErr (loads "[a]\n[a]") = true ∧
    loads "[[a]]\n[[a]]" = .ok [(['a'], .array [.table [], .table []])] :=
  ⟨rfl, rfl⟩

/-- C2: assigning a key that already exists at the same scope is a
hard error regardless of value types, so no value is ever overwritten
in place.  Conjuncts: (1) when the leaf key of a parsed key-value pair
is already present in its (viewable) parent nest, the key-value rule
errors; (2) when the key-value rule succeeds, the leaf key was absent
from the parent nest beforehand — nothing is overwritten; (3) concrete
duplicate assignments of differing value types all error. -/
theorem claim_C2 :
    (∀ (pf : ParseFloat) (fuel : Nat) (src : Chars) (pos : Nat) (st : PState)
      (p1 : Nat) (key : Key) (value v0 : Value) (nest : Table),
      parseKeyValuePair pf fuel src pos = .ok (p1, key, value) →
      getNestView st.out (st.headerNamespace ++ key.dropLast) true = some nest →
      tget nest (key.getLastD []) = some v0 →
      isErr (keyValueRule pf fuel src pos st) = true)
    ∧ (∀ (pf : ParseFloat) (fuel : Nat) (src : Chars) (pos : Nat) (st : PState)
      (p1 : Nat) (key : Key) (value : Value) (r : Nat × PState) (nest : Table),
      parseKeyValuePair pf fuel src pos = .ok (p1, key, value) →
      getNestView st.out (st.headerNamespace ++ key.dropLast) true = some nest →
      keyValueRule pf fuel src pos st = .ok r →
      tget nest (key.getLastD []) = none)
    ∧ isErr (loads "a = 1\na = 2") = true
    ∧ isErr (loads "a = 1\na = \"x\"") = true
    ∧ isErr (loads "[t]\nk = 1\nk = 2") = true := by
  refine ⟨?_, ?_, rfl, rfl, rfl⟩
  · intro pf fuel src pos st p1 key value v0 nest hkv hview hstem
    simp only [keyValueRule, hkv]
    split
    · simp [isErr]
    · obtain ⟨t2, ht⟩ := modifyNest_of_view (st.headerNamespace ++ key.dropLast) st.out true
        (fun nest => match tget nest (key.getLastD []) with
          | some _ => (nest, true)
          | none => (tset nest (key.getLastD []) value, false)) nest hview
      simp only [hstem] at ht
      rw [ht]
      simp [isErr]
  · intro pf fuel src pos st p1 key value r nest hkv hview hok
    cases hstem : tget nest (key.getLastD []) with
    | none => rfl
    | some v0 =>
      exfalso
      simp only [keyValueRule, hkv] at hok
      split at hok
      · exact absurd hok (by simp)
      · obtain ⟨t2, ht⟩ := modifyNest_of_view (st.headerNamespace ++ key.dropLast) st.out true
          (fun nest => match tget nest (key.getLastD []) with
            | some _ => (nest, true)
            | none => (tset nest (key.getLastD []) value, false)) nest hview
        simp only [hstem] at ht
        rw [ht] at hok
        simp at hok

/-- C2 witness: a duplicate leaf key in the root nest makes the
key-value rule error, at a concrete state holding `a = 1` already. -/
theorem claim_C2_witness :
    isErr (keyValueRule defaultParseFloat 20 ['a', ' ', '=', ' ', '2'] 0
      ⟨[(['a'], .int 1)], [], []⟩) = true :=
  claim_C2.1 defaultParseFloat 20 ['a', ' ', '=', ' ', '2'] 0
    ⟨[(['a'], .int 1)], [], []⟩ 5 [['a']] (.int 2) (.int 1) [(['a'], .int 1)]
    rfl rfl rfl

/-- C6: key-value statements and sub-table headers after an
array-of-tables header resolve into the last appended element of the
array: the nest walk, on a key whose value is an array (with
`access_lists` true), descends into the array's last element; and the
concrete documents behave accordingly. -/
theorem claim_C6 :
    (∀ (t : Table) (k : Chars) (xs : List Value) (d : Table) (rest : Key),
      tget t k = some (.array xs) → xs.getLast? = some (.table d) →
      getNestView t (k :: rest) true = getNestView d rest true)
    ∧ loads "[[a]]\nx=1\n[[a]]\nx=2" =
        .ok [(['a'], .array [.table [(['x'], .int 1)], .table [(['x'], .int 2)]])]
    ∧ loads "[[a]]\n[a.b]\nx=1" =
        .ok [(['a'], .array [.table [(['b'], .table [(['x'], .int 1)])]])] := by
  refine ⟨?_, rfl, rfl⟩
  intro t k xs d rest h1 h2
  simp only [getNestView, h1, Option.getD_some]
  rw [h2]
  simp

/-- C6 witness: the descend-into-last-element conjunct at a concrete
table whose key holds a two-element array of tables. -/
theorem claim_C6_witness :
    getNestView [(['a'], Value.array [.table [], .table [(['y'], .int 5)]])]
      [['a']] true = getNestView [(['y'], Value.int 5)] [] true :=
  claim_C6.1 [(['a'], Value.array [.table [], .table [(['y'], .int 5)]])]
    ['a'] [.table [], .table [(['y'], .int 5)]] [(['y'], .int 5)] [] rfl rfl

/-- C7: a `\u` escape takes exactly 4 hex digits (`\U` 8) and must
decode to a Unicode scalar value.  Conjuncts: (1) a payload shorter
than required errors; (2) a payload containing a non-hex character
errors; (3) a payload decoding outside the scalar ranges errors;
(4) success returns position advanced by exactly the payload length
and the decoded character, and implies the payload was well-formed and
scalar; (5) concretely, `\uD800` (a surrogate) fails, `\u0041` yields
`"A"`, and a two-digit payload `\u41` fails. -/
theorem claim_C7 :
    (∀ (src : Chars) (pos n : Nat), (slice src pos n).length ≠ n →
      isErr (parseHexChar src pos n) = true)
    ∧ (∀ (src : Chars) (pos n : Nat) (c : Char), c ∈ slice src pos n →
      isHexDig c = false → isErr (parseHexChar src pos n) = true)
    ∧ (∀ (src : Chars) (pos n : Nat),
      isUnicodeScalarValue (baseToNat 16 (slice src pos n)) = false →
      isErr (parseHexChar src pos n) = true)
    ∧ (∀ (src : Chars) (pos n p : Nat) (cs : Chars),
      parseHexChar src pos n = .ok (p, cs) →
      p = pos + n ∧ (slice src pos n).length = n ∧
      (∀ c ∈ slice src pos n, isHexDig c = true) ∧
      isUnicodeScalarValue (baseToNat 16 (slice src pos n)) = true ∧
      cs = [Char.ofNat (baseToNat 16 (slice src pos n))])
    ∧ isErr (loads "x = \"\\uD800\"") = true
    ∧ loads "x = \"\\u0041\"" = .ok [(['x'], .str ['A'])]
    ∧ isErr (loads "x = \"\\u41\"") = true := by
  refine ⟨?_, ?_, ?_, ?_, rfl, rfl, rfl⟩
  · intro src pos n h
    simp [parseHexChar, h, isErr]
  · intro src pos n c hmem hbad
    have hany : (slice src pos n).any (fun c => !isHexDig c) = true :=
      List.any_eq_true.mpr ⟨c, hmem, by simp [hbad]⟩
    simp [parseHexChar, hany, isErr]
  · intro src pos n hsc
    simp only [parseHexChar]
    split
    · simp [isErr]
    · simp [hsc, isErr]
  · intro src pos n p cs h
    simp only [parseHexChar] at h
    split at h
    · exact absurd h (by simp)
    · rename_i hcond
      split at h
      · exact absurd h (by simp)
      · rename_i hsc
        simp only [Except.ok.injEq, Prod.mk.injEq] at h
        obtain ⟨hp, hcs⟩ := h
        simp only [decide_eq_true_eq, Bool.or_eq_true, not_or, List.any_eq_true,
          not_exists, not_and, Bool.not_eq_true'] at hcond
        simp only [Bool.not_eq_true', Bool.not_eq_false] at hsc
        refine ⟨hp.symm, by omega, ?_, hsc, hcs.symm⟩
        intro c hc
        have := hcond.2
        simp only [Bool.not_eq_true] at this
        have h2 := this c hc
        simpa using h2

/-- C7 witness: the success conjunct applied to the concrete payload
`0041`, and the surrogate conjunct applied to `D800`. -/
theorem claim_C7_witness :
    (4 = 0 + 4 ∧ (slice ['0', '0', '4', '1'] 0 4).length = 4 ∧
      (∀ c ∈ slice ['0', '0', '4', '1'] 0 4, isHexDig c = true) ∧
      isUnicodeScalarValue (baseToNat 16 (slice ['0', '0', '4', '1'] 0 4)) = true ∧
      ['A'] = [Char.ofNat (baseToNat 16 (slice ['0', '0', '4', '1'] 0 4))]) ∧
    isErr (parseHexChar ['D', '8', '0', '0'] 0 4) = true :=
  ⟨claim_C7.2.2.2.1 ['0', '0', '4', '1'] 0 4 4 ['A'] rfl,
   claim_C7.2.2.1 ['D', '8', '0', '0'] 0 4 rfl⟩

/-- C8: fractional seconds are normalized to exactly six digits by
right-padding with zeros and truncating.  Conjuncts: (1) with nine
fractional digits only the first six survive (truncation, not
rounding); (2) with two fractional digits the value is the two digits
scaled by `10^4` (zero padding); (3) concrete local-time and datetime
literals with nine and with two fractional digits produce exactly
those microsecond fields through `loads`. -/
theorem claim_C8 :
    (∀ ds : Chars, ds.length = 9 → microsOfFrac ('.' :: ds) = digitsToNat (ds.take 6))
    ∧ (∀ ds : Chars, ds.length = 2 → microsOfFrac ('.' :: ds) = digitsToNat ds * 10 ^ 4)
    ∧ loads "x = 07:32:00.999999999" = .ok [(['x'], .time 7 32 0 999999)]
    ∧ loads "x = 1999-01-01T00:00:00.123456789" =
        .ok [(['x'], .datetime 1999 1 1 0 0 0 123456 none)]
    ∧ loads "x = 07:32:00.99" = .ok [(['x'], .time 7 32 0 990000)]
    ∧ loads "x = 1999-01-01T00:00:00.99" =
        .ok [(['x'], .datetime 1999 1 1 0 0 0 990000 none)] := by
  refine ⟨?_, ?_, rfl, rfl, rfl, rfl⟩
  · intro ds h
    simp only [microsOfFrac]
    rw [List.take_append_of_le_length (by omega)]
  · intro ds h
    simp only [microsOfFrac]
    rw [List.take_append_eq_append_take, List.take_of_length_le (by omega), h,
      List.take_replicate, digitsToNat_append_zeroes]
    norm_num

/-- C8 witness: both fractional-digit conjuncts at concrete digit
strings. -/
theorem claim_C8_witness :
    microsOfFrac ('.' :: ['9', '9', '9', '9', '9', '9', '9', '9', '9']) =
      digitsToNat (['9', '9', '9', '9', '9', '9', '9', '9', '9'].take 6) ∧
    microsOfFrac ('.' :: ['9', '9']) = digitsToNat ['9', '9'] * 10 ^ 4 :=
  ⟨claim_C8.1 ['9', '9', '9', '9', '9', '9', '9', '9', '9'] rfl,
   claim_C8.2.1 ['9', '9'] rfl⟩

theorem parseDatetimeV_ok_shape (g : DTG) (v : Value)
    (h : parseDatetimeV g = .ok v) :
    v.isDateTimeLike = true ∧ v.isIntOrFloat = false := by
  unfold parseDatetimeV at h
  split at h
  · split at h
    · exact Except.noConfusion h
    · cases h
      exact ⟨rfl, rfl⟩
  · split at h
    · exact Except.noConfusion h
    · split at h
      · exact Except.noConfusion h
      · split at h
        · exact Except.noConfusion h
        · cases h
          exact ⟨rfl, rfl⟩

theorem parseLocaltimeV_ok_shape (g : LTG) (v : Value)
    (h : parseLocaltimeV g = .ok v) :
    v.isTimeVal = true ∧ v.isIntOrFloat = false := by
  unfold parseLocaltimeV at h
  split at h
  · exact Except.noConfusion h
  · cases h
    exact ⟨rfl, rfl⟩

/-- C5 (corrected): the value parser checks the datetime and
local-time patterns before the generic decimal pattern, so wherever
the datetime (or local-time) pattern matches, `parse_value` never
returns an integer or float: it returns the date/datetime (or time)
value built from the match when the standard-library constructor
accepts the field values, and raises that constructor's bare
`ValueError` otherwise (the original claim's unconditional "returns a
date/datetime value" fails at calendar-invalid matches such as
`2021-02-30`); concretely `x = 1979-05-27` yields a local date while
`x = 1979` yields the integer 1979. -/
theorem claim_C5 :
    (∀ (pf : ParseFloat) (fuel : Nat) (src : Chars) (pos : Nat) (g : DTG),
      matchDatetime (src.drop pos) = some g →
      (∀ v, parseDatetimeV g = .ok v →
        parseValue pf (fuel + 1) src pos = .ok (pos + g.len, v) ∧
        v.isDateTimeLike = true ∧ v.isIntOrFloat = false) ∧
      (∀ m, parseDatetimeV g = .error m →
        parseValue pf (fuel + 1) src pos = .error (.valueError m)))
    ∧ (∀ (pf : ParseFloat) (fuel : Nat) (src : Chars) (pos : Nat) (g : LTG),
      matchDatetime (src.drop pos) = none →
      matchLocalTime (src.drop pos) = some g →
      (∀ v, parseLocaltimeV g = .ok v →
        parseValue pf (fuel + 1) src pos = .ok (pos + g.len, v) ∧
        v.isTimeVal = true ∧ v.isIntOrFloat = false) ∧
      (∀ m, parseLocaltimeV g = .error m →
        parseValue pf (fuel + 1) src pos = .error (.valueError m)))
    ∧ loads "x = 1979-05-27" = .ok [(['x'], .date 1979 5 27)]
    ∧ loads "x = 1979" = .ok [(['x'], .int 1979)] := by
  refine ⟨?_, ?_, rfl, rfl⟩
  · intro pf fuel src pos g h
    obtain ⟨c, rest, hcs, hdig⟩ := matchDatetime_head (src.drop pos) g h
    have hget : src.get? pos = some c := by
      rw [List.get?_eq_getElem?, ← List.head?_drop, hcs]
      rfl
    have hq : ¬c = '"' := fun he => by subst he; exact absurd hdig (by decide)
    have ha : ¬c = '\'' := fun he => by subst he; exact absurd hdig (by decide)
    have hct : ¬c = 't' := fun he => by subst he; exact absurd hdig (by decide)
    have hcf : ¬c = 'f' := fun he => by subst he; exact absurd hdig (by decide)
    refine ⟨fun v hv => ⟨?_, parseDatetimeV_ok_shape g v hv⟩, fun m hm => ?_⟩
    · simp only [parseValue, hget, h]
      simp [hq, ha, hct, hcf, hv]
    · simp only [parseValue, hget, h]
      simp [hq, ha, hct, hcf, hm]
  · intro pf fuel src pos g hdt h
    obtain ⟨c, rest, hcs, hdig⟩ := matchLocalTime_head (src.drop pos) g h
    have hget : src.get? pos = some c := by
      rw [List.get?_eq_getElem?, ← List.head?_drop, hcs]
      rfl
    have hq : ¬c = '"' := fun he => by subst he; exact absurd hdig (by decide)
    have ha : ¬c = '\'' := fun he => by subst he; exact absurd hdig (by decide)
    have hct : ¬c = 't' := fun he => by subst he; exact absurd hdig (by decide)
    have hcf : ¬c = 'f' := fun he => by subst he; exact absurd hdig (by decide)
    refine ⟨fun v hv => ⟨?_, parseLocaltimeV_ok_shape g v hv⟩, fun m hm => ?_⟩
    · simp only [parseValue, hget, hdt, h]
      simp [hq, ha, hct, hcf, hv]
    · simp only [parseValue, hget, hdt, h]
      simp [hq, ha, hct, hcf, hm]

/-- C5 counterexample to the original unconditional statement: at
`2021-02-30` the datetime pattern matches, yet `parse_value` raises
the `date` constructor's bare `ValueError` instead of returning a
date/datetime value — and so does `loads` on the whole document. -/
theorem claim_C5_counterexample :
    matchDatetime ("2021-02-30".toList) = some ⟨10, 2021, 2, 30, none⟩ ∧
    parseValue defaultParseFloat 1 ("2021-02-30".toList) 0 =
      .error (.valueError "day is out of range for month") ∧
    loads "x = 2021-02-30" = .error (.valueError "day is out of range for month") :=
  ⟨rfl, rfl, rfl⟩

/-- C9: in a multiline string, a newline immediately after the opening
triple delimiter is not part of the value, and the closing sequence
may absorb up to two extra delimiter characters beyond the required
three, which are appended to the value.  Conjuncts: for every clean
body, the multiline literal opened by three apostrophes and a newline
and closed by exactly three apostrophes yields the body itself (the
opening newline is stripped), by four apostrophes yields the body plus
one apostrophe, by five the body plus two; concretely through `loads`,
the basic-string analogues with four and with five closing quotes and
a literal string with four closing apostrophes behave the same. -/
theorem claim_C9 :
    (∀ body : Chars,
      (∀ c ∈ body, ¬c = '\'' ∧ illegalMultilineLiteralStrChar c = false) →
      parseMultilineStr (('\'' :: '\'' :: '\'' :: '\n' :: body) ++ ['\'', '\'', '\'']) 0 true =
        .ok (body.length + 7, body)
      ∧ parseMultilineStr (('\'' :: '\'' :: '\'' :: '\n' :: body) ++ ['\'', '\'', '\'', '\'']) 0 true =
        .ok (body.length + 8, body ++ ['\''])
      ∧ parseMultilineStr (('\'' :: '\'' :: '\'' :: '\n' :: body) ++ ['\'', '\'', '\'', '\'', '\'']) 0 true =
        .ok (body.length + 9, body ++ ['\'', '\'']))
    ∧ loads "x = \"\"\"\nab\"\"\"\"" = .ok [(['x'], .str ['a', 'b', '"'])]
    ∧ loads "x = \"\"\"\nab\"\"\"\"\"" = .ok [(['x'], .str ['a', 'b', '"', '"'])]
    ∧ loads (String.mk (['x', ' ', '=', ' ', '\'', '\'', '\'', '\n', 'a', 'b'] ++
        ['\'', '\'', '\'', '\''])) = .ok [(['x'], .str ['a', 'b', '\''])] := by
  refine ⟨?_, rfl, rfl, rfl⟩
  intro body hclean
  refine ⟨?_, ?_, ?_⟩
  · have hps := parseString_lit body [] hclean
      ((('\'' :: '\'' :: '\'' :: '\n' :: body) ++ ['\'', '\'', '\'']).length + 2)
      (by simp)
    simp only [parseMultilineStr, parseString, ite_true]
    norm_num [List.get?] at hps ⊢
    rw [hps]
    have hget7 : ('\'' :: '\'' :: '\'' :: '\n' ::
        (body ++ [('\'' : Char), '\'', '\'']))[body.length + 7]? = none := by
      apply List.getElem?_eq_none
      simp
    simp [hget7]
  · have hps := parseString_lit body ['\''] hclean
      ((('\'' :: '\'' :: '\'' :: '\n' :: body) ++ ['\'', '\'', '\'', '\'']).length + 2)
      (by simp)
    simp only [parseMultilineStr, parseString, ite_true]
    norm_num [List.get?] at hps ⊢
    rw [hps]
    have hre : ('\'' :: '\'' :: '\'' :: '\n' :: (body ++ [('\'' : Char), '\'', '\'', '\''])) =
        (('\'' :: '\'' :: '\'' :: '\n' :: body) ++ ['\'', '\'', '\'']) ++ ['\''] := by simp
    have h7 : ('\'' :: '\'' :: '\'' :: '\n' ::
        (body ++ [('\'' : Char), '\'', '\'', '\'']))[body.length + 7]? = some '\'' := by
      rw [hre, List.getElem?_append_right (by simp)]
      simp
    have h8 : ('\'' :: '\'' :: '\n' ::
        (body ++ [('\'' : Char), '\'', '\'', '\'']))[body.length + 7]? = none := by
      apply List.getElem?_eq_none
      simp
    simp [h7, h8]
  · have hps := parseString_lit body ['\'', '\''] hclean
      ((('\'' :: '\'' :: '\'' :: '\n' :: body) ++ ['\'', '\'', '\'', '\'', '\'']).length + 2)
      (by simp)
    simp only [parseMultilineStr, parseString, ite_true]
    norm_num [List.get?] at hps ⊢
    rw [hps]
    have hre : ('\'' :: '\'' :: '\'' :: '\n' :: (body ++ [('\'' : Char), '\'', '\'', '\'', '\''])) =
        (('\'' :: '\'' :: '\'' :: '\n' :: body) ++ ['\'', '\'', '\'']) ++ ['\'', '\''] := by simp
    have h7 : ('\'' :: '\'' :: '\'' :: '\n' ::
        (body ++ [('\'' : Char), '\'', '\'', '\'', '\'']))[body.length + 7]? = some '\'' := by
      rw [hre, List.getElem?_append_right (by simp)]
      simp
    have hre2 : ('\'' :: '\'' :: '\n' :: (body ++ [('\'' : Char), '\'', '\'', '\'', '\''])) =
        (('\'' :: '\'' :: '\n' :: body) ++ ['\'', '\'', '\'', '\'']) ++ ['\''] := by simp
    have h8 : ('\'' :: '\'' :: '\n' ::
        (body ++ [('\'' : Char), '\'', '\'', '\'', '\'']))[body.length + 7]? = some '\'' := by
      rw [hre2, List.getElem?_append_right (by simp)]
      simp
    simp [h7, h8]

/-- C9 witness: the general conjunct applied to the concrete body
`ab`. -/
theorem claim_C9_witness :
    parseMultilineStr (('\'' :: '\'' :: '\'' :: '\n' :: ['a', 'b']) ++ ['\'', '\'', '\'', '\'']) 0 true =
      .ok ((['a', 'b'] : Chars).length + 8, ['a', 'b'] ++ ['\'']) :=
  (claim_C9.1 ['a', 'b'] (by decide)).2.1

/-- C4 (the error-kind guarantee is refuted: a bare `ValueError`
escapes).  Conjuncts: (1) every parse returns a table, raises the
public error with `suffixed_err` coordinates, or raises a bare
standard-library `ValueError`; (2) the `suffixed_err` location reads
`"end of document"` exactly when the position is at or past the end of
the source, and otherwise `"line L, column C"` where `L` is one more
than the number of newlines before the position; (3) the tree
builder's internal `KeyError` in the key-value rule is translated to
the public "Can not overwrite a value" error before escaping;
(4) concretely, `a = 1` followed by `[a.b]` yields that public error;
but (5) on `x = 2021-02-30` — matched by the datetime pattern and
rejected by the `date` constructor — `loads` raises a bare
`ValueError` with no location suffix, so an exception other than the
single public error kind does reach the caller. -/
theorem claim_C4 :
    (∀ s : String,
      (∃ t, loads s = .ok t) ∨
      (∃ e, loads s = .error (.toml e) ∧ Suffixed (normalize s.toList) e) ∨
      (∃ m, loads s = .error (.valueError m)))
    ∧ (∀ (src : Chars) (pos : Nat) (msg : String),
      (suffixedErr src pos msg).msg = msg ∧
      (src.length ≤ pos → (suffixedErr src pos msg).loc = "end of document") ∧
      (pos < src.length →
        (suffixedErr src pos msg).loc =
          "line " ++ toString ((src.take pos).count '\n' + 1) ++ ", column " ++
            toString (if (src.take pos).count '\n' + 1 = 1 then pos + 1
              else pos - rfindNl src pos)))
    ∧ (∀ (pf : ParseFloat) (fuel : Nat) (src : Chars) (pos : Nat) (st : PState)
        (p1 : Nat) (key : Key) (value : Value),
      parseKeyValuePair pf fuel src pos = .ok (p1, key, value) →
      modifyNest st.out (st.headerNamespace ++ key.dropLast) true (fun nest =>
          match tget nest (key.getLastD []) with
          | some _ => (nest, true)
          | none => (tset nest (key.getLastD []) value, false)) = .error () →
      flagsIs st.flags (st.headerNamespace ++ key.dropLast) FROZEN = false →
      keyValueRule pf fuel src pos st =
        .error (.toml (suffixedErr src p1 "Can not overwrite a value")))
    ∧ (∃ e, loads "a = 1\n[a.b]" = .error (.toml e) ∧
        e.msg = "Can not overwrite a value")
    ∧ loads "x = 2021-02-30" =
        .error (.valueError "day is out of range for month") := by
  refine ⟨?_, ?_, ?_, ⟨_, rfl, rfl⟩, rfl⟩
  · intro s
    cases hres : loads s with
    | ok t => exact .inl ⟨t, rfl⟩
    | error e =>
      have hres2 := hres
      unfold loads loadsWith at hres2
      have h2 := errS_stepGo defaultParseFloat _ _ _ 0 ⟨[], [], []⟩ e hres2
      rcases h2 with ⟨e0, he, hs⟩ | ⟨m, he⟩
      · subst he
        exact .inr (.inl ⟨e0, rfl, hs⟩)
      · subst he
        exact .inr (.inr ⟨m, rfl⟩)
  · intro src pos msg
    refine ⟨rfl, ?_, ?_⟩
    · intro h
      simp [suffixedErr, coordRepr, h]
    · intro h
      simp [suffixedErr, coordRepr, Nat.not_le.mpr h]
  · intro pf fuel src pos st p1 key value hkv hmn hfr
    simp only [keyValueRule, hkv, hfr]
    rw [if_neg (by simp [hfr])]
    rw [hmn]

/-- C4 witness: the coordinate conjuncts at a concrete source and
position, and the `KeyError`-translation conjunct at a concrete
document state where `a` already holds the integer 1 and the statement
assigns `a.b`. -/
theorem claim_C4_witness :
    ((suffixedErr ['a', '\n', 'b'] 5 "m").loc = "end of document" ∧
      (suffixedErr ['a', '\n', 'b'] 2 "m").loc = "line 2, column 1") ∧
    keyValueRule defaultParseFloat 20 ['a', '.', 'b', ' ', '=', ' ', '2'] 0
      ⟨[(['a'], .int 1)], [], []⟩ =
      .error (.toml (suffixedErr ['a', '.', 'b', ' ', '=', ' ', '2'] 7
        "Can not overwrite a value")) :=
  ⟨⟨(claim_C4.2.1 ['a', '\n', 'b'] 5 "m").2.1 (by decide),
    by
      rw [(claim_C4.2.1 ['a', '\n', 'b'] 2 "m").2.2 (by decide)]
      rfl⟩,
   claim_C4.2.2.1 defaultParseFloat 20 ['a', '.', 'b', ' ', '=', ' ', '2'] 0
     ⟨[(['a'], .int 1)], [], []⟩ 7 [['a'], ['b']] (.int 2) rfl rfl rfl⟩

/-- C10: for every input consisting only of horizontal whitespace,
newlines and well-formed comments — including the empty string — the
parse succeeds with an empty root table: the statement loop consumes
blank lines and comments creating no key, and the end of the input
terminates the parse with the untouched root. -/
theorem claim_C10 :
    (∀ s : String, blankList (normalize s.toList) = true → loads s = .ok [])
    ∧ loads "" = .ok []
    ∧ loads "   \t  " = .ok []
    ∧ loads "# note\n\n  \t # another\n" = .ok []
    ∧ loads "\n\r\n\n" = .ok [] := by
  refine ⟨?_, rfl, rfl, rfl, rfl⟩
  intro s hb
  unfold loads loadsWith
  exact stepGo_blank defaultParseFloat _ _ _ 0 ⟨[], [], []⟩ (by omega) (by simpa using hb)

/-- C10 witness: the blank-document conjunct applied to a concrete
document of whitespace, newlines and comments. -/
theorem claim_C10_witness : loads " \t# only a comment\n  \n" = .ok [] :=
  claim_C10.1 " \t# only a comment\n  \n" rfl

/-- C5 witness: the datetime conjunct at the concrete text
`1979-05-27` and the local-time conjunct at `07:32:00`, both accepted
by the constructors. -/
theorem claim_C5_witness :
    (parseValue defaultParseFloat 1 ['1', '9', '7', '9', '-', '0', '5', '-', '2', '7'] 0 =
      .ok (0 + (10 : Nat), .date 1979 5 27) ∧
      Value.isDateTimeLike (.date 1979 5 27) = true ∧
      Value.isIntOrFloat (.date 1979 5 27) = false) ∧
    (parseValue defaultParseFloat 1 ['0', '7', ':', '3', '2', ':', '0', '0'] 0 =
      .ok (0 + (8 : Nat), .time 7 32 0 0) ∧
      Value.isTimeVal (.time 7 32 0 0) = true ∧
      Value.isIntOrFloat (.time 7 32 0 0) = false) :=
  ⟨(claim_C5.1 defaultParseFloat 0 ['1', '9', '7', '9', '-', '0', '5', '-', '2', '7'] 0
      ⟨10, 1979, 5, 27, none⟩ rfl).1 (.date 1979 5 27) rfl,
   (claim_C5.2.1 defaultParseFloat 0 ['0', '7', ':', '3', '2', ':', '0', '0'] 0
      ⟨8, 7, 32, 0, []⟩ rfl rfl).1 (.time 7 32 0 0) rfl⟩

end Tomli
